import Mathlib

/-!
# ibed: metadata index, ranking and search engine

A shallow embedding of `internal/model`, `internal/redis/redis.go` and the
handlers of `internal/api/handler.go`, together with the properties of the
design document that can be stated over it.

## Modelling conventions

* The Redis server is external to the repository.  It is modelled as a keyspace
  `Store`: a list of `(key, entry)` pairs whose order is the enumeration order of
  `KEYS`.  An entry holds a typed value (string, set or sorted set) and an
  optional time to live.  Commands applied to a key of another type fail with
  `Err.wrongType` (Redis `WRONGTYPE`) and leave the keyspace unchanged.
* `encoding/json` is external as well.  A serialized value is a `Blob`;
  `json.Marshal` of a record is the constructor of its shape, and
  `json.Unmarshal` into a record type reads the fields whose JSON names the
  two shapes share (the behaviour of the Go decoder, which skips unknown keys).
* Go strings are Lean strings (valid Unicode); `time.Time` is an instant
  counted as an integer; sorted-set scores are natural numbers, since the
  program only ever adds `1` to a score, and sums are rounded to the nearest
  float64 (`roundF64`), as Redis keeps scores as doubles.
* Go `int` is the 64-bit integer: sums are wrapped by `wrapInt64`, and a slice
  expression out of bounds is the panic `Err.sliceBounds`.
* `strings.ToLower` maps every character by `unicode.ToLower`, whose table is
  given as data (`lowerRanges`).
* Time does not pass inside one operation: a time to live is the remaining
  life, in seconds, at the instant of the operation.
* Connection failures of Redis and failures of the file system are outside the
  model; paths use the separator `/`; `md5`, `hex.EncodeToString` and
  `http.DetectContentType` are parameters of the handler.
* The password digest of `auth.Auth` and the token parser behind
  `AuthMiddleware` (`jwt.ParseWithClaims`) are parameters as well; a request
  body is given decoded, `none` when decoding fails; the logger, the recoverer
  and the rate limiter of the router are not modelled.
-/

namespace Ibed

/-! ## Data model (`internal/model`) -/

/-- The record `model.Image`. -/
structure Image where
  ID : String
  UserID : String
  Filename : String
  Description : String
  Tags : List String
  IsPrivate : Bool
  Views : Int
  CreatedAt : Int
deriving DecidableEq, Repr

/-- The record `model.User`. -/
structure User where
  ID : String
  Username : String
  Password : String
  IsAdmin : Bool
  CreatedAt : Int
deriving DecidableEq, Repr

/-! ## The backing key-value store -/

/-- Errors and run-time panics of the embedded code. -/
inductive Err where
  | wrongType
  | unmarshal
  | sliceBounds
  | nilDeref
deriving DecidableEq, Repr

deriving instance DecidableEq for Except

/-- A serialized value as stored under a Redis string key: the JSON of an image record, the
JSON of a user record, or `raw` bytes that `json.Unmarshal` rejects. -/
inductive Blob where
  | image (img : Image)
  | user (u : User)
  | raw (bytes : String)
deriving DecidableEq, Repr

/-- The function `json.Marshal` on a `model.Image`; it does not fail on the records of the
model. -/
def marshalImage (img : Image) : Blob := Blob.image img

/-- The function `json.Marshal` on a `model.User`; it does not fail on the records of the
model. -/
def marshalUser (u : User) : Blob := Blob.user u

/-- The function `json.Unmarshal` into a `model.Image`: the JSON names shared
with a user record are `id` and `created_at`; other bytes are rejected. -/
def unmarshalImage : Blob → Except Err Image
  | Blob.image img => Except.ok img
  | Blob.user u =>
      Except.ok { ID := u.ID, UserID := "", Filename := "", Description := "",
                  Tags := [], IsPrivate := false, Views := 0, CreatedAt := u.CreatedAt }
  | Blob.raw _ => Except.error Err.unmarshal

/-- The function `json.Unmarshal` into a `model.User`. -/
def unmarshalUser : Blob → Except Err User
  | Blob.user u => Except.ok u
  | Blob.image img =>
      Except.ok { ID := img.ID, Username := "", Password := "", IsAdmin := false,
                  CreatedAt := img.CreatedAt }
  | Blob.raw _ => Except.error Err.unmarshal

/-- A Redis sorted set: members with their scores, no member twice. -/
structure ZSet where
  entries : List (String × Nat)
  nodup : (entries.map Prod.fst).Nodup

instance : DecidableEq ZSet := fun a b =>
  decidable_of_iff (a.entries = b.entries)
    ⟨fun h => by cases a; cases b; simp_all, fun h => by rw [h]⟩

instance : Repr ZSet := ⟨fun z n => reprPrec z.entries n⟩

/-- A typed Redis value. -/
inductive Value where
  | str (data : Blob)
  | set (members : List String)
  | zset (z : ZSet)
deriving DecidableEq, Repr

/-- A key's value and its remaining time to live in seconds (`none`: no expiry). -/
structure Entry where
  val : Value
  ttl : Option Nat
deriving DecidableEq, Repr

/-- The keyspace, in key enumeration order. -/
abbrev Store := List (String × Entry)

/-- The entry stored under a key. -/
def lookup : Store → String → Option Entry
  | [], _ => none
  | (k', e) :: rest, k => if k' = k then some e else lookup rest k

/-- Write an entry under a key: in place when the key exists, else as a new key. -/
def put : Store → String → Entry → Store
  | [], k, e => [(k, e)]
  | (k', e') :: rest, k, e => if k' = k then (k, e) :: rest else (k', e') :: put rest k e

/-- Redis `DEL key`. -/
def DEL (s : Store) (k : String) : Store := s.filter (fun p => p.1 ≠ k)

/-- Redis `GET key`; `none` is the reply `redis.Nil`. -/
def GET (s : Store) (k : String) : Except Err (Option Blob) :=
  match lookup s k with
  | none => Except.ok none
  | some ⟨Value.str data, _⟩ => Except.ok (some data)
  | some _ => Except.error Err.wrongType

/-- Redis `SET key value` without expiry: any previous value and time to live are replaced. -/
def SET (s : Store) (k : String) (data : Blob) : Store := put s k ⟨Value.str data, none⟩

/-- Redis `SADD key member`. -/
def SADD (s : Store) (k : String) (m : String) : Store × Option Err :=
  match lookup s k with
  | none => (put s k ⟨Value.set [m], none⟩, none)
  | some ⟨Value.set ms, ttl⟩ => (if m ∈ ms then s else put s k ⟨Value.set (ms ++ [m]), ttl⟩, none)
  | some _ => (s, some Err.wrongType)

/-- Redis `SMEMBERS key`: a missing key is the empty set. -/
def SMEMBERS (s : Store) (k : String) : Except Err (List String) :=
  match lookup s k with
  | none => Except.ok []
  | some ⟨Value.set ms, _⟩ => Except.ok ms
  | some _ => Except.error Err.wrongType

/-- Redis `EXPIRE key seconds`: no effect on a missing key. -/
def EXPIRE (s : Store) (k : String) (seconds : Nat) : Store :=
  match lookup s k with
  | none => s
  | some e => put s k { e with ttl := some seconds }

/-- Redis `TTL key`, as far as the model needs it: the remaining life of an existing key. -/
def TTL (s : Store) (k : String) : Option (Option Nat) := (lookup s k).map Entry.ttl

/-- The commands queued on a pipeline by this program. -/
inductive Cmd where
  | set (key : String) (data : Blob)
  | sadd (key : String) (member : String)
  | expire (key : String) (seconds : Nat)
deriving DecidableEq, Repr

/-- Run one queued command. -/
def Cmd.run (s : Store) : Cmd → Store × Option Err
  | Cmd.set k d => (SET s k d, none)
  | Cmd.sadd k m => SADD s k m
  | Cmd.expire k t => (EXPIRE s k t, none)

/-- The first error of two. -/
def firstErr : Option Err → Option Err → Option Err
  | some e, _ => some e
  | none, e => e

/-- The method `TxPipelined` (`MULTI`/`EXEC`): every queued command runs, in order, a failing
command does not stop the later ones, and the first error is reported. -/
def TxPipelined : Store → List Cmd → Store × Option Err
  | s, [] => (s, none)
  | s, c :: cs =>
      let r := c.run s
      let r' := TxPipelined r.1 cs
      (r'.1, firstErr r.2 r'.2)

/-! ## `internal/redis/redis.go` -/

/-- The layout `"image:%s"`. -/
def imageKey (id : String) : String := "image:" ++ id

/-- The layout `"image:%s:tags"`. -/
def tagsKey (id : String) : String := "image:" ++ id ++ ":tags"

/-- The layout `"user:%s:images"`. -/
def userImagesKey (userID : String) : String := "user:" ++ userID ++ ":images"

/-- The duration `30*24*time.Hour`, in seconds. -/
def imageTTL : Nat := 30 * 24 * 3600

/-- The commands `Client.SaveImage` queues inside its transaction. -/
def saveImageCmds (img : Image) : List Cmd :=
  [Cmd.set (imageKey img.ID) (marshalImage img)]
    ++ img.Tags.map (fun tag => Cmd.sadd (tagsKey img.ID) tag)
    ++ [Cmd.sadd (userImagesKey img.UserID) img.ID,
        Cmd.expire (imageKey img.ID) imageTTL,
        Cmd.expire (tagsKey img.ID) imageTTL,
        Cmd.expire (userImagesKey img.UserID) imageTTL]

/-- The method `Client.SaveImage`: the new keyspace and the returned error. -/
def SaveImage (s : Store) (img : Image) : Store × Option Err :=
  TxPipelined s (saveImageCmds img)

/-- The method `Client.GetImage`: `ok none` is the pair `(nil, nil)`. -/
def GetImage (s : Store) (imageID : String) : Except Err (Option Image) :=
  match GET s (imageKey imageID) with
  | Except.error e => Except.error e
  | Except.ok none => Except.ok none
  | Except.ok (some data) =>
    match unmarshalImage data with
    | Except.error e => Except.error e
    | Except.ok img =>
      match SMEMBERS s (tagsKey imageID) with
      | Except.error e => Except.error e
      | Except.ok tags => Except.ok (some { img with Tags := tags })

/-- The method `Client.SaveUser`. -/
def SaveUser (s : Store) (user : User) : Store := SET s ("user:" ++ user.ID) (marshalUser user)

/-- The method `Client.GetUser`: `ok none` is the pair `(nil, nil)`. -/
def GetUser (s : Store) (username : String) : Except Err (Option User) :=
  match GET s ("user:" ++ username) with
  | Except.error e => Except.error e
  | Except.ok none => Except.ok none
  | Except.ok (some data) =>
    match unmarshalUser data with
    | Except.error e => Except.error e
    | Except.ok user => Except.ok (some user)

/-! ### The ranking -/

/-- The number of low bits a natural number has beyond the 53 bits of a float64 mantissa;
`fuel` bounds the count. -/
def excessBits : Nat → Nat → Nat
  | 0, _ => 0
  | fuel + 1, x => if x < 2 ^ 53 then 0 else excessBits fuel (x / 2) + 1

/-- The float64 nearest to a natural number, ties to the even mantissa: the value a Redis
score holds after an exact sum is rounded.  Numbers up to `2 ^ 53` are kept as they are. -/
def roundF64 (x : Nat) : Nat :=
  let e := excessBits 1024 x
  let q := x / 2 ^ e
  let r := x % 2 ^ e
  if 2 * r < 2 ^ e ∨ (2 * r = 2 ^ e ∧ q % 2 = 0) then q * 2 ^ e else (q + 1) * 2 ^ e

/-- Add `n` to the score of `m` in a member list, in float64 arithmetic, entering `m` with
score `n` when it is new. -/
def zincrList : List (String × Nat) → String → Nat → List (String × Nat)
  | [], m, n => [(m, roundF64 n)]
  | (m', sc) :: rest, m, n =>
      if m' = m then (m', roundF64 (sc + n)) :: rest else (m', sc) :: zincrList rest m n

/-- The score raise on a sorted set. -/
def ZSet.incr (z : ZSet) (m : String) (n : Nat) : ZSet :=
  ⟨zincrList z.entries m n, by
    have key : ∀ l : List (String × Nat), (zincrList l m n).map Prod.fst
        = if m ∈ l.map Prod.fst then l.map Prod.fst else l.map Prod.fst ++ [m] := by
      intro l
      induction l with
      | nil => simp [zincrList]
      | cons p rest ih =>
        obtain ⟨m', sc⟩ := p
        by_cases hm : m' = m
        · simp [zincrList, hm]
        · have hm' : ¬ m = m' := fun h => hm h.symm
          simp only [zincrList, hm, if_false, List.map_cons, ih, List.mem_cons, hm', false_or]
          split <;> simp
    rw [key]
    split
    · exact z.nodup
    · rename_i hnot
      exact List.Nodup.append z.nodup (List.nodup_singleton m)
        (by simpa [List.disjoint_singleton] using hnot)⟩

/-- The score of a member in a member list (`0` when absent). -/
def scoreIn : List (String × Nat) → String → Nat
  | [], _ => 0
  | (m', sc) :: rest, m => if m' = m then sc else scoreIn rest m

/-- Redis `ZINCRBY key increment member`. -/
def ZINCRBY (s : Store) (k : String) (n : Nat) (m : String) : Store × Option Err :=
  match lookup s k with
  | none => (put s k ⟨Value.zset ((ZSet.mk [] List.nodup_nil).incr m n), none⟩, none)
  | some ⟨Value.zset z, ttl⟩ => (put s k ⟨Value.zset (z.incr m n), ttl⟩, none)
  | some _ => (s, some Err.wrongType)

/-- The order of `ZREVRANGE`: higher score first, equal scores by descending member. -/
def zrevLE (a b : String × Nat) : Bool :=
  decide (b.2 < a.2) || (decide (b.2 = a.2) && decide (b.1 ≤ a.1))

/-- Redis `ZREVRANGE key start stop` for indices counted from the top. -/
def ZREVRANGE (s : Store) (k : String) (start stop : Nat) : Except Err (List String) :=
  match lookup s k with
  | none => Except.ok []
  | some ⟨Value.zset z, _⟩ =>
      Except.ok ((((z.entries.insertionSort (fun a b => zrevLE a b = true)).drop start).take
        (stop + 1 - start)).map Prod.fst)
  | some _ => Except.error Err.wrongType

/-- The method `Client.IncrementView`. -/
def IncrementView (s : Store) (imageID : String) : Store × Option Err :=
  ZINCRBY s "image:views" 1 imageID

/-- The method `Client.GetTop10Images`. -/
def GetTop10Images (s : Store) : Except Err (List String) :=
  ZREVRANGE s "image:views" 0 9

/-! ### Search -/

/-- Redis `KEYS p*`: the keys that start with `p`, in enumeration order. -/
def KEYS (s : Store) (p : String) : List String :=
  (s.map Prod.fst).filter (fun k => p.data.isPrefixOf k.data)

/-- The slice expression `key[n:]` on a key whose first `n` bytes are ASCII. -/
def sliceFrom (n : Nat) (key : String) : String := ⟨key.data.drop n⟩

/-- The lowercase table behind `unicode.ToLower`, first part: the simple lowercase mappings of
the Unicode Character Database (version 14.0.0) as ranges `(first, last, stride, shift)`;
every `stride`-th code point from `first` to `last` maps to itself plus `shift`. -/
def lowerRanges1 : List (Nat × Nat × Nat × Int) :=
  [(65, 90, 1, 32), (192, 214, 1, 32), (216, 222, 1, 32), (256, 302, 2, 1), (304, 304, 1, -199),
   (306, 310, 2, 1), (313, 327, 2, 1), (330, 374, 2, 1), (376, 376, 1, -121), (377, 381, 2, 1),
   (385, 385, 1, 210), (386, 388, 2, 1), (390, 390, 1, 206), (391, 391, 1, 1),
   (393, 394, 1, 205), (395, 395, 1, 1), (398, 398, 1, 79), (399, 399, 1, 202),
   (400, 400, 1, 203), (401, 401, 1, 1), (403, 403, 1, 205), (404, 404, 1, 207),
   (406, 406, 1, 211), (407, 407, 1, 209), (408, 408, 1, 1), (412, 412, 1, 211),
   (413, 413, 1, 213), (415, 415, 1, 214), (416, 420, 2, 1), (422, 422, 1, 218),
   (423, 423, 1, 1), (425, 425, 1, 218), (428, 428, 1, 1), (430, 430, 1, 218), (431, 431, 1, 1),
   (433, 434, 1, 217), (435, 437, 2, 1), (439, 439, 1, 219), (440, 440, 1, 1), (444, 444, 1, 1),
   (452, 452, 1, 2), (453, 453, 1, 1), (455, 455, 1, 2), (456, 456, 1, 1), (458, 458, 1, 2),
   (459, 475, 2, 1), (478, 494, 2, 1), (497, 497, 1, 2), (498, 500, 2, 1), (502, 502, 1, -97),
   (503, 503, 1, -56), (504, 542, 2, 1), (544, 544, 1, -130), (546, 562, 2, 1),
   (570, 570, 1, 10795), (571, 571, 1, 1), (573, 573, 1, -163), (574, 574, 1, 10792),
   (577, 577, 1, 1), (579, 579, 1, -195), (580, 580, 1, 69)]

/-- The lowercase table, second part. -/
def lowerRanges2 : List (Nat × Nat × Nat × Int) :=
  [(581, 581, 1, 71), (582, 590, 2, 1), (880, 882, 2, 1), (886, 886, 1, 1), (895, 895, 1, 116),
   (902, 902, 1, 38), (904, 906, 1, 37), (908, 908, 1, 64), (910, 911, 1, 63), (913, 929, 1, 32),
   (931, 939, 1, 32), (975, 975, 1, 8), (984, 1006, 2, 1), (1012, 1012, 1, -60),
   (1015, 1015, 1, 1), (1017, 1017, 1, -7), (1018, 1018, 1, 1), (1021, 1023, 1, -130),
   (1024, 1039, 1, 80), (1040, 1071, 1, 32), (1120, 1152, 2, 1), (1162, 1214, 2, 1),
   (1216, 1216, 1, 15), (1217, 1229, 2, 1), (1232, 1326, 2, 1), (1329, 1366, 1, 48),
   (4256, 4293, 1, 7264), (4295, 4295, 1, 7264), (4301, 4301, 1, 7264), (5024, 5103, 1, 38864),
   (5104, 5109, 1, 8), (7312, 7354, 1, -3008), (7357, 7359, 1, -3008), (7680, 7828, 2, 1),
   (7838, 7838, 1, -7615), (7840, 7934, 2, 1), (7944, 7951, 1, -8), (7960, 7965, 1, -8),
   (7976, 7983, 1, -8), (7992, 7999, 1, -8), (8008, 8013, 1, -8), (8025, 8031, 2, -8),
   (8040, 8047, 1, -8), (8072, 8079, 1, -8), (8088, 8095, 1, -8), (8104, 8111, 1, -8),
   (8120, 8121, 1, -8), (8122, 8123, 1, -74), (8124, 8124, 1, -9), (8136, 8139, 1, -86),
   (8140, 8140, 1, -9), (8152, 8153, 1, -8), (8154, 8155, 1, -100), (8168, 8169, 1, -8),
   (8170, 8171, 1, -112), (8172, 8172, 1, -7), (8184, 8185, 1, -128), (8186, 8187, 1, -126),
   (8188, 8188, 1, -9), (8486, 8486, 1, -7517), (8490, 8490, 1, -8383)]

/-- The lowercase table, third part. -/
def lowerRanges3 : List (Nat × Nat × Nat × Int) :=
  [(8491, 8491, 1, -8262), (8498, 8498, 1, 28), (8544, 8559, 1, 16), (8579, 8579, 1, 1),
   (9398, 9423, 1, 26), (11264, 11311, 1, 48), (11360, 11360, 1, 1), (11362, 11362, 1, -10743),
   (11363, 11363, 1, -3814), (11364, 11364, 1, -10727), (11367, 11371, 2, 1),
   (11373, 11373, 1, -10780), (11374, 11374, 1, -10749), (11375, 11375, 1, -10783),
   (11376, 11376, 1, -10782), (11378, 11378, 1, 1), (11381, 11381, 1, 1),
   (11390, 11391, 1, -10815), (11392, 11490, 2, 1), (11499, 11501, 2, 1), (11506, 11506, 1, 1),
   (42560, 42604, 2, 1), (42624, 42650, 2, 1), (42786, 42798, 2, 1), (42802, 42862, 2, 1),
   (42873, 42875, 2, 1), (42877, 42877, 1, -35332), (42878, 42886, 2, 1), (42891, 42891, 1, 1),
   (42893, 42893, 1, -42280), (42896, 42898, 2, 1), (42902, 42920, 2, 1),
   (42922, 42922, 1, -42308), (42923, 42923, 1, -42319), (42924, 42924, 1, -42315),
   (42925, 42925, 1, -42305), (42926, 42926, 1, -42308), (42928, 42928, 1, -42258),
   (42929, 42929, 1, -42282), (42930, 42930, 1, -42261), (42931, 42931, 1, 928),
   (42932, 42946, 2, 1), (42948, 42948, 1, -48), (42949, 42949, 1, -42307),
   (42950, 42950, 1, -35384), (42951, 42953, 2, 1), (42960, 42960, 1, 1), (42966, 42968, 2, 1),
   (42997, 42997, 1, 1), (65313, 65338, 1, 32), (66560, 66599, 1, 40), (66736, 66771, 1, 40),
   (66928, 66938, 1, 39), (66940, 66954, 1, 39), (66956, 66962, 1, 39), (66964, 66965, 1, 39),
   (68736, 68786, 1, 64), (71840, 71871, 1, 32), (93760, 93791, 1, 32), (125184, 125217, 1, 34)]

/-- The lowercase table behind `unicode.ToLower`. -/
def lowerRanges : List (Nat × Nat × Nat × Int) :=
  lowerRanges1 ++ lowerRanges2 ++ lowerRanges3

/-- The uppercase table behind `unicode.ToUpper`, first part, in the same form. -/
def upperRanges1 : List (Nat × Nat × Nat × Int) :=
  [(97, 122, 1, -32), (181, 181, 1, 743), (223, 223, 1, -140), (224, 246, 1, -32),
   (248, 254, 1, -32), (255, 255, 1, 121), (257, 303, 2, -1), (305, 305, 1, -232),
   (307, 311, 2, -1), (314, 328, 2, -1), (329, 329, 1, 371), (331, 375, 2, -1),
   (378, 382, 2, -1), (383, 383, 1, -300), (384, 384, 1, 195), (387, 389, 2, -1),
   (392, 392, 1, -1), (396, 396, 1, -1), (402, 402, 1, -1), (405, 405, 1, 97), (409, 409, 1, -1),
   (410, 410, 1, 163), (414, 414, 1, 130), (417, 421, 2, -1), (424, 424, 1, -1),
   (429, 429, 1, -1), (432, 432, 1, -1), (436, 438, 2, -1), (441, 441, 1, -1), (445, 445, 1, -1),
   (447, 447, 1, 56), (453, 453, 1, -1), (454, 454, 1, -2), (456, 456, 1, -1), (457, 457, 1, -2),
   (459, 459, 1, -1), (460, 460, 1, -2), (462, 476, 2, -1), (477, 477, 1, -79),
   (479, 495, 2, -1), (496, 496, 1, -422), (498, 498, 1, -1), (499, 499, 1, -2),
   (501, 501, 1, -1), (505, 543, 2, -1), (547, 563, 2, -1), (572, 572, 1, -1),
   (575, 576, 1, 10815), (578, 578, 1, -1), (583, 591, 2, -1), (592, 592, 1, 10783),
   (593, 593, 1, 10780), (594, 594, 1, 10782), (595, 595, 1, -210), (596, 596, 1, -206),
   (598, 599, 1, -205), (601, 601, 1, -202), (603, 603, 1, -203), (604, 604, 1, 42319),
   (608, 608, 1, -205), (609, 609, 1, 42315), (611, 611, 1, -207), (613, 613, 1, 42280),
   (614, 614, 1, 42308)]

/-- The uppercase table, second part. -/
def upperRanges2 : List (Nat × Nat × Nat × Int) :=
  [(616, 616, 1, -209), (617, 617, 1, -211), (618, 618, 1, 42308), (619, 619, 1, 10743),
   (620, 620, 1, 42305), (623, 623, 1, -211), (625, 625, 1, 10749), (626, 626, 1, -213),
   (629, 629, 1, -214), (637, 637, 1, 10727), (640, 640, 1, -218), (642, 642, 1, 42307),
   (643, 643, 1, -218), (647, 647, 1, 42282), (648, 648, 1, -218), (649, 649, 1, -69),
   (650, 651, 1, -217), (652, 652, 1, -71), (658, 658, 1, -219), (669, 669, 1, 42261),
   (670, 670, 1, 42258), (837, 837, 1, 84), (881, 883, 2, -1), (887, 887, 1, -1),
   (891, 893, 1, 130), (912, 912, 1, 9), (940, 940, 1, -38), (941, 943, 1, -37),
   (944, 944, 1, -11), (945, 961, 1, -32), (962, 962, 1, -31), (963, 971, 1, -32),
   (972, 972, 1, -64), (973, 974, 1, -63), (976, 976, 1, -62), (977, 977, 1, -57),
   (981, 981, 1, -47), (982, 982, 1, -54), (983, 983, 1, -8), (985, 1007, 2, -1),
   (1008, 1008, 1, -86), (1009, 1009, 1, -80), (1010, 1010, 1, 7), (1011, 1011, 1, -116),
   (1013, 1013, 1, -96), (1016, 1016, 1, -1), (1019, 1019, 1, -1), (1072, 1103, 1, -32),
   (1104, 1119, 1, -80), (1121, 1153, 2, -1), (1163, 1215, 2, -1), (1218, 1230, 2, -1),
   (1231, 1231, 1, -15), (1233, 1327, 2, -1), (1377, 1414, 1, -48), (1415, 1415, 1, -82),
   (4304, 4346, 1, 3008), (4349, 4351, 1, 3008), (5112, 5117, 1, -8), (7296, 7296, 1, -6254),
   (7297, 7297, 1, -6253), (7298, 7298, 1, -6244), (7299, 7300, 1, -6242), (7301, 7301, 1, -6243)]

/-- The uppercase table, third part. -/
def upperRanges3 : List (Nat × Nat × Nat × Int) :=
  [(7302, 7302, 1, -6236), (7303, 7303, 1, -6181), (7304, 7304, 1, 35266),
   (7545, 7545, 1, 35332), (7549, 7549, 1, 3814), (7566, 7566, 1, 35384), (7681, 7829, 2, -1),
   (7830, 7830, 1, -7758), (7831, 7831, 1, -7747), (7832, 7832, 1, -7745),
   (7833, 7833, 1, -7744), (7834, 7834, 1, -7769), (7835, 7835, 1, -59), (7841, 7935, 2, -1),
   (7936, 7943, 1, 8), (7952, 7957, 1, 8), (7968, 7975, 1, 8), (7984, 7991, 1, 8),
   (8000, 8005, 1, 8), (8016, 8016, 1, -7083), (8017, 8017, 1, 8), (8018, 8018, 1, -7085),
   (8019, 8019, 1, 8), (8020, 8020, 1, -7087), (8021, 8021, 1, 8), (8022, 8022, 1, -7089),
   (8023, 8023, 1, 8), (8032, 8039, 1, 8), (8048, 8049, 1, 74), (8050, 8053, 1, 86),
   (8054, 8055, 1, 100), (8056, 8057, 1, 128), (8058, 8059, 1, 112), (8060, 8061, 1, 126),
   (8064, 8071, 1, -120), (8072, 8079, 1, -128), (8080, 8087, 1, -104), (8088, 8095, 1, -112),
   (8096, 8103, 1, -56), (8104, 8111, 1, -64), (8112, 8114, 1, 8), (8115, 8115, 1, -7202),
   (8116, 8116, 1, -7214), (8118, 8118, 1, -7205), (8119, 8119, 1, -7206),
   (8124, 8124, 1, -7211), (8126, 8126, 1, -7205), (8130, 8130, 1, 8), (8131, 8131, 1, -7212),
   (8132, 8132, 1, -7227), (8134, 8134, 1, -7215), (8135, 8135, 1, -7216),
   (8140, 8140, 1, -7221), (8144, 8145, 1, 8), (8146, 8146, 1, -7225), (8147, 8147, 1, -7226),
   (8150, 8150, 1, -7229), (8151, 8151, 1, -7230), (8160, 8161, 1, 8), (8162, 8162, 1, -7229),
   (8163, 8163, 1, -7230), (8164, 8164, 1, -7235), (8165, 8165, 1, 7), (8166, 8166, 1, -7233)]

/-- The uppercase table, fourth part. -/
def upperRanges4 : List (Nat × Nat × Nat × Int) :=
  [(8167, 8167, 1, -7234), (8178, 8178, 1, 8), (8179, 8179, 1, -7242), (8180, 8180, 1, -7269),
   (8182, 8182, 1, -7245), (8183, 8183, 1, -7246), (8188, 8188, 1, -7251), (8526, 8526, 1, -28),
   (8560, 8575, 1, -16), (8580, 8580, 1, -1), (9424, 9449, 1, -26), (11312, 11359, 1, -48),
   (11361, 11361, 1, -1), (11365, 11365, 1, -10795), (11366, 11366, 1, -10792),
   (11368, 11372, 2, -1), (11379, 11379, 1, -1), (11382, 11382, 1, -1), (11393, 11491, 2, -1),
   (11500, 11502, 2, -1), (11507, 11507, 1, -1), (11520, 11557, 1, -7264),
   (11559, 11559, 1, -7264), (11565, 11565, 1, -7264), (42561, 42605, 2, -1),
   (42625, 42651, 2, -1), (42787, 42799, 2, -1), (42803, 42863, 2, -1), (42874, 42876, 2, -1),
   (42879, 42887, 2, -1), (42892, 42892, 1, -1), (42897, 42899, 2, -1), (42900, 42900, 1, 48),
   (42903, 42921, 2, -1), (42933, 42947, 2, -1), (42952, 42954, 2, -1), (42961, 42961, 1, -1),
   (42967, 42969, 2, -1), (42998, 42998, 1, -1), (43859, 43859, 1, -928),
   (43888, 43967, 1, -38864), (64256, 64256, 1, -64186), (64257, 64257, 1, -64187),
   (64258, 64258, 1, -64188), (64259, 64259, 1, -64189), (64260, 64260, 1, -64190),
   (64261, 64261, 1, -64178), (64262, 64262, 1, -64179), (64275, 64275, 1, -62927),
   (64276, 64276, 1, -62928), (64277, 64277, 1, -62929), (64278, 64278, 1, -62920),
   (64279, 64279, 1, -62931), (65345, 65370, 1, -32), (66600, 66639, 1, -40),
   (66776, 66811, 1, -40), (66967, 66977, 1, -39), (66979, 66993, 1, -39),
   (66995, 67001, 1, -39), (67003, 67004, 1, -39), (68800, 68850, 1, -64),
   (71872, 71903, 1, -32), (93792, 93823, 1, -32), (125218, 125251, 1, -34)]

/-- The uppercase table behind `unicode.ToUpper`. -/
def upperRanges : List (Nat × Nat × Nat × Int) :=
  upperRanges1 ++ upperRanges2 ++ upperRanges3 ++ upperRanges4

/-- The shift a case table gives a code point: that of the first range holding it, else `0`. -/
def caseShift : List (Nat × Nat × Nat × Int) → Nat → Int
  | [], _ => 0
  | (first, last, stride, shift) :: rest, c =>
      if first ≤ c ∧ c ≤ last ∧ (c - first) % stride = 0 then shift else caseShift rest c

/-- The function `unicode.ToLower`: the ASCII letters directly, any other code point through
the lowercase table. -/
def unicodeToLower (c : Char) : Char :=
  if c.toNat < 128 then
    if 65 ≤ c.toNat ∧ c.toNat ≤ 90 then Char.ofNat (c.toNat + 32) else c
  else Char.ofNat ((c.toNat : Int) + caseShift lowerRanges c.toNat).toNat

/-- The function `unicode.ToUpper`: the ASCII letters directly, any other code point through
the uppercase table. -/
def unicodeToUpper (c : Char) : Char :=
  if c.toNat < 128 then
    if 97 ≤ c.toNat ∧ c.toNat ≤ 122 then Char.ofNat (c.toNat - 32) else c
  else Char.ofNat ((c.toNat : Int) + caseShift upperRanges c.toNat).toNat

/-- The function `strings.ToLower`: every character mapped by `unicode.ToLower`. -/
def toLower (str : String) : String := ⟨str.data.map unicodeToLower⟩

/-- The function `strings.Contains`. -/
def strContains (str sub : String) : Bool := decide (sub.data <:+: str.data)

/-- The function `containsQuery`. -/
def containsQuery (str query : String) : Bool :=
  strContains (toLower str) (toLower query)

/-- The loop of `containsTags`, over an already lowered query. -/
def containsTagsLoop : List String → String → Bool
  | [], _ => false
  | tag :: tags, query =>
      if strContains (toLower tag) query then true else containsTagsLoop tags query

/-- The function `containsTags`. -/
def containsTags (tags : List String) (query : String) : Bool :=
  containsTagsLoop tags (toLower query)

/-- Go `int` addition on a 64-bit platform: the sum wraps around. -/
def wrapInt64 (x : Int) : Int := (x + 2 ^ 63) % 2 ^ 64 - 2 ^ 63

/-- The largest Go `int` on a 64-bit platform. -/
def maxInt : Int := 2 ^ 63 - 1

/-- The smallest Go `int` on a 64-bit platform. -/
def minInt : Int := -(2 ^ 63)

/-- The scan loop of `Client.SearchImages` over the enumerated keys; `images` is the slice
built so far.  A failing `GetImage` skips the key; a `(nil, nil)` reply is dereferenced. -/
def searchLoop (s : Store) (query : String) : List String → List Image → Except Err (List Image)
  | [], images => Except.ok images
  | key :: keys, images =>
    match GetImage s (sliceFrom 6 key) with
    | Except.error _ => searchLoop s query keys images
    | Except.ok none => Except.error Err.nilDeref
    | Except.ok (some img) =>
      if containsQuery img.Description query || containsTags img.Tags query then
        searchLoop s query keys (images ++ [img])
      else
        searchLoop s query keys images

/-- The slice expression `images[start:end]` after the two guards of `Client.SearchImages`. -/
def pageOf (images : List Image) (offset limit : Int) : Except Err (List Image) :=
  let start := offset
  let stop := wrapInt64 (offset + limit)
  if start ≥ (images.length : Int) then Except.ok []
  else
    let stop := if stop > (images.length : Int) then (images.length : Int) else stop
    if 0 ≤ start ∧ start ≤ stop then
      Except.ok ((images.drop start.toNat).take (stop - start).toNat)
    else Except.error Err.sliceBounds

/-- The method `Client.SearchImages`. -/
def SearchImages (s : Store) (query : String) (offset limit : Int) : Except Err (List Image) :=
  match searchLoop s query (KEYS s "image:") [] with
  | Except.error e => Except.error e
  | Except.ok images => pageOf images offset limit

/-! ### The effect of the queued commands on one entry -/

/-- What `SADD key m` makes of the entry under `key`. -/
def saddEntry (o : Option Entry) (m : String) : Option Entry :=
  match o with
  | none => some ⟨Value.set [m], none⟩
  | some ⟨Value.set ms, ttl⟩ => some ⟨Value.set (if m ∈ ms then ms else ms ++ [m]), ttl⟩
  | some e => some e

/-- What `EXPIRE key t` makes of the entry under `key`. -/
def expireEntry (o : Option Entry) (t : Nat) : Option Entry :=
  o.map (fun e => { e with ttl := some t })

/-- The members of an entry that holds a set; no members otherwise. -/
def membersOf : Option Entry → List String
  | some ⟨Value.set ms, _⟩ => ms
  | _ => []

/-- The entry is missing or holds a set: set commands on its key succeed. -/
def setOrMissing : Option Entry → Bool
  | none => true
  | some ⟨Value.set _, _⟩ => true
  | some _ => false

/-! ## `internal/storage` and `internal/api/handler.go` -/

/-- A byte payload. -/
abbrev Bytes := List UInt8

/-- The upload directory: the bytes stored under each path. -/
abbrev Files := List (String × Bytes)

/-- The bytes stored under a path. -/
def readFile : Files → String → Option Bytes
  | [], _ => none
  | (p', b) :: rest, p => if p' = p then some b else readFile rest p

/-- The method `Storage.SaveFile`: create or truncate the path and copy the bytes. -/
def SaveFile : Files → Bytes → String → Files
  | [], content, path => [(path, content)]
  | (p', b) :: rest, content, path =>
      if p' = path then (path, content) :: rest else (p', b) :: SaveFile rest content path

/-- The method `Storage.DeleteFile` (`os.Remove`): `true` reports that the path was missing. -/
def DeleteFile (fs : Files) (path : String) : Files × Bool :=
  (fs.filter (fun p => p.1 ≠ path), (readFile fs path).isNone)

/-- The state the handlers act on: the metadata store and the upload directory. -/
structure World where
  redis : Store
  files : Files
deriving DecidableEq, Repr

/-- The handler's collaborators that the embedding takes as given: the upload directory of
its `Storage`, and the library functions `md5` with `hex.EncodeToString`, and `detectMIME`
(`none` when the first read fails). -/
structure Handler where
  uploadDir : String
  md5Hex : Bytes → String
  detectMIME : Bytes → Option String

/-- The elements of a path between its separators; `cur` is the current element, reversed. -/
def splitSlashLoop : List Char → List Char → List String
  | [], cur => [⟨cur.reverse⟩]
  | c :: cs, cur =>
      if c = '/' then ⟨cur.reverse⟩ :: splitSlashLoop cs [] else splitSlashLoop cs (c :: cur)

/-- The scan of `filepath.Clean` over the path elements; `kept` holds the elements written so
far, last one first.  Empty and `.` elements are dropped, a `..` element removes the element
before it, and is kept at the start of a path that is not rooted. -/
def cleanLoop (rooted : Bool) : List String → List String → List String
  | [], kept => kept
  | c :: cs, kept =>
      if c = "" ∨ c = "." then cleanLoop rooted cs kept
      else if c = ".." then
        match kept with
        | [] => if rooted then cleanLoop rooted cs [] else cleanLoop rooted cs [".."]
        | top :: below =>
            if top = ".." then cleanLoop rooted cs (".." :: top :: below)
            else cleanLoop rooted cs below
      else cleanLoop rooted cs (c :: kept)

/-- Path elements joined by the separator. -/
def joinSlash : List String → String
  | [] => ""
  | [c] => c
  | c :: d :: rest => c ++ "/" ++ joinSlash (d :: rest)

/-- The function `filepath.Clean` with the separator `/`. -/
def filepathClean (path : String) : String :=
  if path = "" then "."
  else
    let rooted := path.data.head? == some '/'
    let body := joinSlash (cleanLoop rooted (splitSlashLoop path.data []) []).reverse
    if rooted then "/" ++ body else if body = "" then "." else body

/-- The function `filepath.Join` on two elements: empty elements before the first non-empty
one are ignored and the result is cleaned. -/
def filepathJoin (a b : String) : String :=
  if a ≠ "" then filepathClean (a ++ "/" ++ b)
  else if b ≠ "" then filepathClean b
  else ""

/-- The method `Storage.GetFilePath`. -/
def GetFilePath (h : Handler) (filename : String) : String := filepathJoin h.uploadDir filename

/-- The values `AuthMiddleware` puts in the request context. -/
structure AuthCtx where
  userID : String
  username : String
  isAdmin : Bool
deriving DecidableEq, Repr

/-- What a handler writes: a JSON body with its status (a string map, or a list of image
records), a served file, or a run-time panic (recovered by the router's `Recoverer`). -/
inductive Response where
  | json (status : Nat) (body : List (String × String))
  | images (status : Nat) (body : List Image)
  | file (path : String)
  | panic
deriving DecidableEq, Repr

/-- The function `respondJSON` on a `map[string]string`. -/
def respondJSON (status : Nat) (data : List (String × String)) : Response :=
  Response.json status data

/-- The function `respondError`. -/
def respondError (status : Nat) (message : String) : Response :=
  respondJSON status [("error", message)]

/-- The function `isImageMIME`. -/
def isImageMIME (mime : String) : Bool :=
  mime == "image/jpeg" || mime == "image/png" || mime == "image/gif" || mime == "image/webp"

/-- The scan of `filepath.Ext` from the end of the path; `acc` is the suffix read so far. -/
def extScan : List Char → List Char → List Char
  | [], _ => []
  | c :: cs, acc => if c = '/' then [] else if c = '.' then '.' :: acc else extScan cs (c :: acc)

/-- The function `filepath.Ext`: the suffix from the last dot of the last path element. -/
def filepathExt (path : String) : String := ⟨extScan path.data.reverse []⟩

/-- The loop of `strings.Split(s, ",")`; `cur` is the current piece, reversed. -/
def splitCommaLoop : List Char → List Char → List String
  | [], cur => [⟨cur.reverse⟩]
  | c :: cs, cur =>
      if c = ',' then ⟨cur.reverse⟩ :: splitCommaLoop cs [] else splitCommaLoop cs (c :: cur)

/-- The call `strings.Split(s, ",")`. -/
def splitComma (str : String) : List String := splitCommaLoop str.data []

/-- The multipart request of `/upload`: the form file `image` (its header name and bytes),
the form values, the context values and the clock reading of `time.Now()`. -/
structure UploadRequest where
  file : Option (String × Bytes)
  description : String
  tags : String
  isPrivate : String
  ctx : Option AuthCtx
  now : Int

/-- The method `Handler.UploadImage`.  The temporary file lives outside the upload
directory and is removed on return. -/
def UploadImage (h : Handler) (w : World) (r : UploadRequest) : World × Response :=
  match r.file with
  | none => (w, respondError 400 "Invalid file")
  | some (headerFilename, content) =>
    let md5Sum := h.md5Hex content
    match GetImage w.redis md5Sum with
    | Except.ok (some _) => (w, respondJSON 200 [("url", "/image/" ++ md5Sum)])
    | _ =>
      match h.detectMIME content with
      | none => (w, respondError 400 "Unsupported file type")
      | some mimeType =>
        if !isImageMIME mimeType then (w, respondError 400 "Unsupported file type")
        else
          let filename := md5Sum ++ filepathExt headerFilename
          let path := GetFilePath h filename
          let files := SaveFile w.files content path
          match r.ctx with
          | none => ({ w with files := files }, Response.panic)
          | some c =>
            let img : Image :=
              { ID := md5Sum, UserID := c.userID, Filename := filename,
                Description := r.description, Tags := splitComma r.tags,
                IsPrivate := r.isPrivate == "true", Views := 0, CreatedAt := r.now }
            match SaveImage w.redis img with
            | (redis, some _) =>
                ({ redis := redis, files := (DeleteFile files path).1 },
                  respondError 500 "Failed to save metadata")
            | (redis, none) =>
                ({ redis := redis, files := files },
                  respondJSON 200 [("url", "/image/" ++ md5Sum)])

/-- The method `Handler.DeleteImage` for the URL parameter `id` and the request context. -/
def DeleteImage (h : Handler) (w : World) (imageID : String) (ctx : Option AuthCtx) :
    World × Response :=
  match GetImage w.redis imageID with
  | Except.ok (some img) =>
    match ctx with
    | none => (w, Response.panic)
    | some c =>
      if img.UserID ≠ c.userID && !c.isAdmin then (w, respondError 403 "Unauthorized")
      else
        let path := GetFilePath h img.Filename
        let files := (DeleteFile w.files path).1
        let redis := DEL w.redis (imageKey imageID)
        ({ redis := redis, files := files }, respondJSON 200 [("message", "Image deleted")])
  | _ => (w, respondError 404 "Image not found")

/-! ## `internal/auth` and the user handlers -/

/-- The layout `"user:%s"`. -/
def userKey (id : String) : String := "user:" ++ id

/-- The service `auth.Auth`: its secret and the digest of `HashPassword` (`md5` with
`hex.EncodeToString`), taken as given. -/
structure Auth where
  secret : String
  HashPassword : String → String

/-- The errors of `Auth.Register`: an error of the store, or `username already exists`. -/
inductive AuthErr where
  | store (e : Err)
  | usernameExists
deriving DecidableEq, Repr

/-- The method `Auth.Register`; `now` is the reading of `time.Now()`. -/
def Auth.Register (a : Auth) (now : Int) (s : Store) (username password : String) :
    Store × Except AuthErr User :=
  match GetUser s username with
  | Except.error e => (s, Except.error (AuthErr.store e))
  | Except.ok (some _) => (s, Except.error AuthErr.usernameExists)
  | Except.ok none =>
    let hashed := a.HashPassword password
    let user : User :=
      { ID := username, Username := username, Password := hashed,
        IsAdmin := username == "admin", CreatedAt := now }
    (SaveUser s user, Except.ok user)

/-- The method `Handler.Register`; `body` is the decoded request (`username`, `password`),
`none` when decoding fails. -/
def Handler.Register (a : Auth) (now : Int) (s : Store) (body : Option (String × String)) :
    Store × Response :=
  match body with
  | none => (s, respondError 400 "Invalid request")
  | some (username, password) =>
    match a.Register now s username password with
    | (s', Except.error _) => (s', respondError 500 "Failed to register")
    | (s', Except.ok user) =>
        (s', respondJSON 200 [("message", "User registered"), ("user_id", user.ID)])

/-- The method `Handler.ChangePassword`; `body` is the decoded `new_password`. -/
def Handler.ChangePassword (a : Auth) (s : Store) (ctx : Option AuthCtx)
    (body : Option String) : Store × Response :=
  match body with
  | none => (s, respondError 400 "Invalid request")
  | some newPassword =>
    match ctx with
    | none => (s, Response.panic)
    | some c =>
      match GetUser s c.userID with
      | Except.ok (some user) =>
          (SaveUser s { user with Password := a.HashPassword newPassword },
            respondJSON 200 [("message", "Password changed")])
      | _ => (s, respondError 500 "User not found")

/-- The method `Handler.ResetPassword`; `body` is the decoded pair (`user_id`,
`new_password`). -/
def Handler.ResetPassword (a : Auth) (s : Store) (body : Option (String × String)) :
    Store × Response :=
  match body with
  | none => (s, respondError 400 "Invalid request")
  | some (userID, newPassword) =>
    match GetUser s userID with
    | Except.ok (some user) =>
        (SaveUser s { user with Password := a.HashPassword newPassword },
          respondJSON 200 [("message", "Password reset")])
    | _ => (s, respondError 404 "User not found")

/-- The method `Handler.ChangeUsername`; `body` is the decoded `new_username`. -/
def Handler.ChangeUsername (s : Store) (ctx : Option AuthCtx) (body : Option String) :
    Store × Response :=
  match body with
  | none => (s, respondError 400 "Invalid request")
  | some newUsername =>
    match ctx with
    | none => (s, Response.panic)
    | some c =>
      match GetUser s c.userID with
      | Except.ok (some user) =>
          (SaveUser s { user with Username := newUsername },
            respondJSON 200 [("message", "Username changed")])
      | _ => (s, respondError 404 "User not found")

/-- The end of `Handler.DeleteUser`, once the user id to delete is known. -/
def deleteUserKey (s : Store) (userID : String) : Store × Response :=
  match GetUser s userID with
  | Except.ok (some user) =>
      if user.IsAdmin then (s, respondError 403 "Cannot delete admin user")
      else (DEL s (userKey userID), respondJSON 200 [("message", "User deleted")])
  | _ => (DEL s (userKey userID), respondJSON 200 [("message", "User deleted")])

/-- The method `Handler.DeleteUser`; `body` is the decoded `target_user_id`, read only for
an admin caller. -/
def Handler.DeleteUser (s : Store) (ctx : Option AuthCtx) (body : Option String) :
    Store × Response :=
  match ctx with
  | none => (s, Response.panic)
  | some c =>
    if c.isAdmin then
      match body with
      | none => (s, respondError 400 "Invalid request")
      | some targetUserID => deleteUserKey s targetUserID
    else deleteUserKey s c.userID

/-! ## Search and image access through the handlers -/

/-- The run-time panics among the failures of the embedded code. -/
def Err.isPanic : Err → Bool
  | Err.sliceBounds => true
  | Err.nilDeref => true
  | _ => false

/-- The filter loop of `Handler.SearchImages`: a private record is skipped unless the
context names its owner or an admin. -/
def filterVisible (ctx : Option AuthCtx) : List Image → List Image
  | [] => []
  | img :: images =>
      if img.IsPrivate &&
          (match ctx with
           | none => true
           | some c => img.UserID ≠ c.userID && !c.isAdmin) then
        filterVisible ctx images
      else img :: filterVisible ctx images

/-- The method `Handler.SearchImages`; `offset` and `limit` are the values `strconv.Atoi`
yields for the query parameters. -/
def Handler.SearchImages (w : World) (query : String) (offset limit : Int)
    (ctx : Option AuthCtx) : World × Response :=
  let limit := if limit = 0 then 10 else limit
  match Ibed.SearchImages w.redis query offset limit with
  | Except.error e =>
      if e.isPanic then (w, Response.panic)
      else (w, respondError 500 "Failed to search images")
  | Except.ok images => (w, Response.images 200 (filterVisible ctx images))

/-- The method `Handler.GetImage` for the URL parameter `id` and the request context; a
failing `IncrementView` is only logged. -/
def Handler.GetImage (h : Handler) (w : World) (imageID : String) (ctx : Option AuthCtx) :
    World × Response :=
  match Ibed.GetImage w.redis imageID with
  | Except.ok (some img) =>
    if img.IsPrivate &&
        (match ctx with
         | none => true
         | some c => c.userID ≠ img.UserID) then
      (w, respondError 403 "Private image")
    else
      ({ w with redis := (IncrementView w.redis imageID).1 },
        Response.file (GetFilePath h img.Filename))
  | _ => (w, respondError 404 "Image not found")

/-- The call `strings.TrimPrefix(authHeader, "Bearer ")`. -/
def trimBearer (authHeader : String) : String :=
  if "Bearer ".data.isPrefixOf authHeader.data then ⟨authHeader.data.drop 7⟩ else authHeader

/-- The method `Handler.AuthMiddleware`.  `parse` stands for `jwt.ParseWithClaims` under the
configured secret: the three claims of a valid token, `none` for any other string. -/
def AuthMiddleware (parse : String → Option AuthCtx) (authHeader : String)
    (next : Option AuthCtx → World → World × Response) (w : World) : World × Response :=
  if authHeader = "" then (w, respondError 401 "Missing token")
  else
    match parse (trimBearer authHeader) with
    | none => (w, respondError 401 "Invalid token")
    | some claims => next (some claims) w

/-- The two methods that `SetupRouter` registers on the pattern `/image/{id}`. -/
inductive ImageMethod where
  | GET
  | DELETE
deriving DecidableEq, Repr

/-- The function `SetupRouter` on the pattern `/image/{id}`: `DELETE` is registered inside
the group that uses `AuthMiddleware`, `GET` outside of it, so its handler runs on the
context of the incoming request, which carries no values.  The logger, the recoverer and the
rate limiter of the router are not modelled. -/
def SetupRouter (parse : String → Option AuthCtx) (h : Handler) (w : World)
    (method : ImageMethod) (id : String) (authHeader : String) : World × Response :=
  match method with
  | ImageMethod.DELETE => AuthMiddleware parse authHeader (fun ctx w' => DeleteImage h w' id ctx) w
  | ImageMethod.GET => h.GetImage w id none

/-! ## The properties of the design document, in its words -/

/-- The image record the loop of `SearchImages` reads for an enumerated key, if any. -/
def recordAt (s : Store) (key : String) : Option Image :=
  match GetImage s (sliceFrom 6 key) with
  | Except.ok (some img) => some img
  | _ => none

/-- The stored image records, one per record key, in key enumeration order; keys whose
record cannot be read (tag sets, the ranking) contribute none. -/
def storedRecords (s : Store) : List Image := (KEYS s "image:").filterMap (recordAt s)

/-- Two characters are the same letter up to case: they have the same lowercase form or the
same uppercase form. -/
def EqIgnoreCase (c d : Char) : Bool :=
  unicodeToLower c == unicodeToLower d || unicodeToUpper c == unicodeToUpper d

/-- The string `str` contains `q` as a case-insensitive substring: some run of `str` is `q`
letter by letter, up to case. -/
def CIContains (str q : String) : Prop :=
  ∃ pre mid post : List Char, str.data = pre ++ mid ++ post
    ∧ List.Forall₂ (fun c d => EqIgnoreCase c d = true) mid q.data

/-- A record matches a query: its description or one of its tags contains the query,
ignoring case. -/
def Matches (q : String) (r : Image) : Prop :=
  CIContains r.Description q ∨ ∃ t ∈ r.Tags, CIContains t q

/-- The string `str`, lowered by `strings.ToLower`, contains the lowered `q` as a substring. -/
def LoweredContains (str q : String) : Prop :=
  ∃ pre post : List Char, (toLower str).data = pre ++ (toLower q).data ++ post

/-- A record matches a query after lowering: its lowered description or one of its lowered
tags contains the lowered query. -/
def MatchesLowered (q : String) (r : Image) : Prop :=
  LoweredContains r.Description q ∨ ∃ t ∈ r.Tags, LoweredContains t q

/-- The test of the search loop. -/
def matchesQuery (q : String) (r : Image) : Bool :=
  containsQuery r.Description q || containsTags r.Tags q

/-- The members and scores of the ranking `image:views` (none when the key is missing or
holds another type). -/
def rankingOf (s : Store) : List (String × Nat) :=
  match lookup s "image:views" with
  | some ⟨Value.zset z, _⟩ => z.entries
  | _ => []

/-- The score of an id in the ranking; an absent id counts as `0`. -/
def viewScore (s : Store) (id : String) : Nat := scoreIn (rankingOf s) id

/-- The entry is missing or holds a sorted set: ranking commands on its key succeed. -/
def zsetOrMissing : Option Entry → Bool
  | none => true
  | some ⟨Value.zset _, _⟩ => true
  | some _ => false

/-- Calling `IncrementView id` a number of times in a row. -/
def IncrementViewTimes : Nat → Store → String → Store
  | 0, s, _ => s
  | k + 1, s, id => IncrementViewTimes k (IncrementView s id).1 id

/-- The first value of a Go result pair: the slice, `nil` beside an error. -/
def returnedIds : Except Err (List String) → List String
  | Except.ok ids => ids
  | Except.error _ => []

/-! ## Sample data -/

/-- A public record with one tag. -/
def catImage : Image :=
  { ID := "h1", UserID := "alice", Filename := "h1.png", Description := "A cat",
    Tags := ["cat"], IsPrivate := false, Views := 0, CreatedAt := 1 }

/-- The same record saved again with another tag. -/
def catImageRetagged : Image := { catImage with Tags := ["cute"] }

/-- A record without tags. -/
def plainImage : Image :=
  { ID := "h2", UserID := "bob", Filename := "h2.png", Description := "A dog",
    Tags := [], IsPrivate := false, Views := 0, CreatedAt := 2 }

/-- A second public record, tagged with a word that contains `cat`. -/
def dogImage : Image :=
  { ID := "h3", UserID := "bob", Filename := "h3.png", Description := "A dog",
    Tags := ["Catalog"], IsPrivate := false, Views := 0, CreatedAt := 3 }

/-- A store with two records, their tag sets and ownership sets, and a ranking. -/
def sampleStore : Store :=
  (IncrementView (SaveImage (SaveImage [] catImage).1 dogImage).1 "h3").1

/-- A record whose description is a Greek name that ends in the final sigma. -/
def greekImage : Image :=
  { ID := "h5", UserID := "alice", Filename := "h5.png", Description := "Οδυσσέας",
    Tags := [], IsPrivate := false, Views := 0, CreatedAt := 6 }

/-- A record whose description is in capitals, with an accented letter. -/
def cafeImage : Image :=
  { ID := "h6", UserID := "alice", Filename := "h6.png", Description := "CAFÉ",
    Tags := [], IsPrivate := false, Views := 0, CreatedAt := 7 }

/-- A store whose ranking holds `h1` with the score `2 ^ 53`. -/
def saturatedStore : Store :=
  [("image:views", ⟨Value.zset (ZSet.mk [("h1", 9007199254740992)] (by simp)), none⟩)]

/-- A handler over the directory `uploads`, with a two-entry table standing in for the
fingerprint function and every payload detected as a PNG image. -/
def sampleHandler : Handler :=
  { uploadDir := "uploads",
    md5Hex := fun content => if content = [1, 2, 3] then "h1" else "h9",
    detectMIME := fun _ => some "image/png" }

/-- The world after the record `catImage`, with its file, has been stored. -/
def sampleWorld : World :=
  { redis := (SaveImage [] catImage).1, files := [("uploads/h1.png", [1, 2, 3])] }

/-- A second upload of the same bytes, by another user and with other attributes. -/
def reupload : UploadRequest :=
  { file := some ("copy.jpg", [1, 2, 3]), description := "again", tags := "x,y",
    isPrivate := "true", ctx := some ⟨"bob", "bob", false⟩, now := 9 }

/-- The keyspaces reachable from the empty one by the user operations, with any arguments:
`Register`, `ChangePassword`, `ResetPassword`, `ChangeUsername` and `DeleteUser`. -/
inductive UserReachable (a : Auth) : Store → Prop where
  | empty : UserReachable a []
  | register (s : Store) (now : Int) (username password : String) :
      UserReachable a s → UserReachable a (a.Register now s username password).1
  | changePassword (s : Store) (ctx : Option AuthCtx) (body : Option String) :
      UserReachable a s → UserReachable a (Handler.ChangePassword a s ctx body).1
  | resetPassword (s : Store) (body : Option (String × String)) :
      UserReachable a s → UserReachable a (Handler.ResetPassword a s body).1
  | changeUsername (s : Store) (ctx : Option AuthCtx) (body : Option String) :
      UserReachable a s → UserReachable a (Handler.ChangeUsername s ctx body).1
  | deleteUser (s : Store) (ctx : Option AuthCtx) (body : Option String) :
      UserReachable a s → UserReachable a (Handler.DeleteUser s ctx body).1

/-- Every value of the keyspace is a user record, stored under the key of its own id, and
is an admin only under the id `admin`. -/
def UserInv (s : Store) : Prop :=
  ∀ k e, lookup s k = some e →
    ∃ u : User, e.val = Value.str (Blob.user u) ∧ k = userKey u.ID
      ∧ (u.IsAdmin = true → u.ID = "admin")

/-- An authentication service with a marker standing in for the password digest. -/
def sampleAuth : Auth := { secret := "secret", HashPassword := fun password => "md5:" ++ password }

/-- A private record of `alice`. -/
def privateImage : Image :=
  { ID := "h4", UserID := "alice", Filename := "h4.png", Description := "A diary",
    Tags := ["cat"], IsPrivate := true, Views := 0, CreatedAt := 5 }

/-- The world after the private record of `alice` and the public record of `bob` have been
stored with their files. -/
def privateWorld : World :=
  { redis := (SaveImage (SaveImage [] privateImage).1 dogImage).1,
    files := [("uploads/h4.png", [4]), ("uploads/h3.png", [3])] }

/-- A token table standing in for the parser of `AuthMiddleware`: one valid token for
`alice`, one for `bob`. -/
def sampleParse (token : String) : Option AuthCtx :=
  if token = "token-of-alice" then some ⟨"alice", "alice", false⟩
  else if token = "token-of-bob" then some ⟨"bob", "bob", false⟩
  else none

/-- The record `Register` creates for the username `admin` at instant `1`. -/
def adminUser : User :=
  { ID := "admin", Username := "admin", Password := "md5:pw", IsAdmin := true, CreatedAt := 1 }

/-- The record `Register` creates for the username `bob:images` at instant `1`. -/
def bobImagesUser : User :=
  { ID := "bob:images", Username := "bob:images", Password := "md5:pw", IsAdmin := false,
    CreatedAt := 1 }

/-! ## Lemmas on the keyspace -/

theorem lookup_cons (k' : String) (e : Entry) (rest : Store) (k : String) :
    lookup ((k', e) :: rest) k = if k' = k then some e else lookup rest k := rfl

theorem lookup_put (s : Store) (k : String) (e : Entry) (k' : String) :
    lookup (put s k e) k' = if k = k' then some e else lookup s k' := by
  induction s with
  | nil => simp [put, lookup]
  | cons p rest ih =>
    obtain ⟨k0, e0⟩ := p
    by_cases h : k0 = k
    · subst h
      by_cases h' : k0 = k' <;> simp [put, lookup_cons, h']
    · simp only [put, h, if_false, lookup_cons, ih]
      by_cases h0 : k0 = k'
      · subst h0
        simp [Ne.symm h]
      · simp [h0]

theorem put_eq_self (s : Store) (k : String) (e : Entry) (h : lookup s k = some e) :
    put s k e = s := by
  induction s with
  | nil => simp [lookup] at h
  | cons p rest ih =>
    obtain ⟨k0, e0⟩ := p
    by_cases hk : k0 = k
    · subst hk
      simp [lookup_cons] at h
      simp [put, h]
    · simp only [lookup_cons, hk, if_false] at h
      simp [put, hk, ih h]

theorem put_put (s : Store) (k : String) (e e' : Entry) :
    put (put s k e) k e' = put s k e' := by
  induction s with
  | nil => simp [put]
  | cons p rest ih =>
    obtain ⟨k0, e0⟩ := p
    by_cases hk : k0 = k
    · simp [put, hk]
    · simp [put, hk, ih]

theorem lookup_SET (s : Store) (k : String) (d : Blob) (k' : String) :
    lookup (SET s k d) k' = if k = k' then some ⟨Value.str d, none⟩ else lookup s k' :=
  lookup_put s k _ k'

theorem lookup_SADD (s : Store) (k m : String) (k' : String) :
    lookup (SADD s k m).1 k' = if k = k' then saddEntry (lookup s k) m else lookup s k' := by
  unfold SADD
  cases h : lookup s k with
  | none => simp [lookup_put, saddEntry]
  | some e =>
    obtain ⟨v, ttl⟩ := e
    cases v with
    | str d => by_cases hk : k = k' <;> simp [saddEntry, hk, ← h]
    | zset z => by_cases hk : k = k' <;> simp [saddEntry, hk, ← h]
    | set ms =>
      by_cases hm : m ∈ ms
      · by_cases hk : k = k' <;> simp [saddEntry, hm, hk, ← h]
      · by_cases hk : k = k' <;> simp [saddEntry, hm, hk, lookup_put]

theorem lookup_EXPIRE (s : Store) (k : String) (t : Nat) (k' : String) :
    lookup (EXPIRE s k t) k' = if k = k' then expireEntry (lookup s k) t else lookup s k' := by
  unfold EXPIRE
  cases h : lookup s k with
  | none =>
    by_cases hk : k = k'
    · subst hk
      simp [expireEntry, h]
    · simp [hk]
  | some e => by_cases hk : k = k' <;> simp [expireEntry, hk, lookup_put]

theorem TxPipelined_append (s : Store) (a b : List Cmd) :
    (TxPipelined s (a ++ b)).1 = (TxPipelined (TxPipelined s a).1 b).1 := by
  induction a generalizing s with
  | nil => simp [TxPipelined]
  | cons c cs ih => simp [TxPipelined, ih]

/-- The entry a run of `SADD key tag` commands leaves under `key`. -/
theorem lookup_saddAll (tags : List String) (s : Store) (k k' : String) :
    lookup (TxPipelined s (tags.map (fun tag => Cmd.sadd k tag))).1 k'
      = if k = k' then tags.foldl saddEntry (lookup s k) else lookup s k' := by
  induction tags generalizing s with
  | nil => by_cases hk : k = k' <;> simp [TxPipelined, hk]
  | cons t ts ih =>
    simp only [List.map_cons, TxPipelined, Cmd.run, ih, List.foldl_cons, lookup_SADD]
    by_cases hk : k = k' <;> simp [hk]

/-! ### The three keys of a record are distinct -/

theorem imageKey_ne_tagsKey (id : String) : imageKey id ≠ tagsKey id := by
  intro h
  have := congrArg String.length h
  simp [imageKey, tagsKey, String.length_append] at this
  exact absurd this (by decide)

theorem imageKey_ne_userImagesKey (id u : String) : imageKey id ≠ userImagesKey u := by
  intro h
  have := congrArg String.data h
  simp [imageKey, userImagesKey, String.data_append] at this

theorem tagsKey_ne_userImagesKey (id u : String) : tagsKey id ≠ userImagesKey u := by
  intro h
  have := congrArg String.data h
  simp [tagsKey, userImagesKey, String.data_append] at this

/-- The keyspace after `SaveImage`, key by key. -/
theorem lookup_SaveImage (s : Store) (x : Image) (k : String) :
    lookup (SaveImage s x).1 k =
      if k = imageKey x.ID then some ⟨Value.str (marshalImage x), some imageTTL⟩
      else if k = tagsKey x.ID then
        expireEntry (x.Tags.foldl saddEntry (lookup s (tagsKey x.ID))) imageTTL
      else if k = userImagesKey x.UserID then
        expireEntry (saddEntry (lookup s (userImagesKey x.UserID)) x.ID) imageTTL
      else lookup s k := by
  have hKT := imageKey_ne_tagsKey x.ID
  have hKU := imageKey_ne_userImagesKey x.ID x.UserID
  have hTU := tagsKey_ne_userImagesKey x.ID x.UserID
  unfold SaveImage saveImageCmds
  rw [TxPipelined_append, TxPipelined_append]
  simp only [TxPipelined, Cmd.run, lookup_EXPIRE, lookup_SADD, lookup_saddAll, lookup_SET]
  by_cases h1 : k = imageKey x.ID
  · subst h1
    simp [hKT, hKU, hTU, Ne.symm hKT, Ne.symm hKU, Ne.symm hTU, expireEntry]
  · by_cases h2 : k = tagsKey x.ID
    · subst h2
      simp [hKT, hKU, hTU, Ne.symm hKT, Ne.symm hKU, Ne.symm hTU]
    · by_cases h3 : k = userImagesKey x.UserID
      · subst h3
        simp [hKT, hKU, hTU, Ne.symm hKT, Ne.symm hKU, Ne.symm hTU]
      · simp [h1, h2, h3, Ne.symm h1, Ne.symm h2, Ne.symm h3, hKT, hKU, hTU,
          Ne.symm hKT, Ne.symm hKU, Ne.symm hTU]

/-! ### Sets under `SADD` -/

theorem saddEntry_ne_none (o : Option Entry) (m : String) : saddEntry o m ≠ none := by
  unfold saddEntry
  split <;> simp

theorem saddEntry_wrongType (o : Option Entry) (m : String) (h : setOrMissing o = false) :
    saddEntry o m = o := by
  unfold saddEntry
  split <;> simp_all [setOrMissing]

theorem saddEntry_setOrMissing (o : Option Entry) (m : String) (h : setOrMissing o = true) :
    setOrMissing (saddEntry o m) = true := by
  unfold saddEntry
  split <;> simp_all [setOrMissing]

theorem mem_membersOf_saddEntry (o : Option Entry) (m t : String)
    (h : setOrMissing o = true) :
    t ∈ membersOf (saddEntry o m) ↔ t ∈ membersOf o ∨ t = m := by
  unfold saddEntry
  split
  · simp [membersOf]
  · rename_i ms ttl
    by_cases hm : m ∈ ms
    · simp only [membersOf, hm, if_true]
      constructor
      · exact fun ht => Or.inl ht
      · rintro (ht | ht)
        · exact ht
        · exact ht ▸ hm
    · simp [membersOf, hm]
  · rename_i e hnot
    obtain ⟨v, ttl⟩ := e
    cases v <;> simp_all [setOrMissing]

theorem foldl_saddEntry_wrongType (tags : List String) (o : Option Entry)
    (h : setOrMissing o = false) : tags.foldl saddEntry o = o := by
  induction tags with
  | nil => rfl
  | cons t ts ih => simp [List.foldl_cons, saddEntry_wrongType o t h, ih]

theorem foldl_saddEntry_setOrMissing (tags : List String) (o : Option Entry)
    (h : setOrMissing o = true) : setOrMissing (tags.foldl saddEntry o) = true := by
  induction tags generalizing o with
  | nil => simpa using h
  | cons t ts ih => exact ih _ (saddEntry_setOrMissing o t h)

theorem mem_membersOf_foldl (tags : List String) (o : Option Entry) (t : String)
    (h : setOrMissing o = true) :
    t ∈ membersOf (tags.foldl saddEntry o) ↔ t ∈ membersOf o ∨ t ∈ tags := by
  induction tags generalizing o with
  | nil => simp
  | cons a ts ih =>
    rw [List.foldl_cons, ih _ (saddEntry_setOrMissing o a h), mem_membersOf_saddEntry o a t h]
    simp only [List.mem_cons]
    tauto

theorem foldl_saddEntry_eq_none (tags : List String) (o : Option Entry) :
    tags.foldl saddEntry o = none ↔ o = none ∧ tags = [] := by
  cases tags with
  | nil => simp
  | cons a ts =>
    simp only [List.foldl_cons, reduceCtorEq, and_false, iff_false]
    have : ∀ (l : List String) (o' : Option Entry), o' ≠ none → l.foldl saddEntry o' ≠ none := by
      intro l
      induction l with
      | nil => intro o' h; simpa using h
      | cons b l ih => intro o' _; exact ih _ (saddEntry_ne_none o' b)
    exact this ts _ (saddEntry_ne_none o a)

theorem membersOf_expireEntry (o : Option Entry) (t : Nat) :
    membersOf (expireEntry o t) = membersOf o := by
  cases o with
  | none => rfl
  | some e =>
    obtain ⟨v, ttl⟩ := e
    cases v <;> rfl

theorem setOrMissing_expireEntry (o : Option Entry) (t : Nat) :
    setOrMissing (expireEntry o t) = setOrMissing o := by
  cases o with
  | none => rfl
  | some e =>
    obtain ⟨v, ttl⟩ := e
    cases v <;> rfl

theorem SMEMBERS_eq (s : Store) (k : String) :
    SMEMBERS s k = if setOrMissing (lookup s k) = true then Except.ok (membersOf (lookup s k))
      else Except.error Err.wrongType := by
  unfold SMEMBERS
  split <;> simp_all [setOrMissing, membersOf]

/-- A set entry, once read back, lists exactly its members. -/
theorem membersOf_of_eq_set (o : Option Entry) (ms : List String) (ttl : Option Nat)
    (h : o = some ⟨Value.set ms, ttl⟩) : membersOf o = ms ∧ setOrMissing o = true := by
  subst h
  exact ⟨rfl, rfl⟩

/-! ## Save and read back -/

/-- What `GetImage` returns for the id of a record just saved. -/
theorem GetImage_SaveImage (s : Store) (x : Image) :
    GetImage (SaveImage s x).1 x.ID =
      if setOrMissing (lookup s (tagsKey x.ID)) = true then
        Except.ok (some { x with
          Tags := membersOf (x.Tags.foldl saddEntry (lookup s (tagsKey x.ID))) })
      else Except.error Err.wrongType := by
  have hKT := imageKey_ne_tagsKey x.ID
  unfold GetImage
  have hG : GET (SaveImage s x).1 (imageKey x.ID) = Except.ok (some (marshalImage x)) := by
    simp [GET, lookup_SaveImage]
  have hT : lookup (SaveImage s x).1 (tagsKey x.ID)
      = expireEntry (x.Tags.foldl saddEntry (lookup s (tagsKey x.ID))) imageTTL := by
    rw [lookup_SaveImage]
    simp [Ne.symm hKT]
  rw [hG]
  simp only [marshalImage, unmarshalImage, SMEMBERS_eq, hT, setOrMissing_expireEntry,
    membersOf_expireEntry]
  by_cases h : setOrMissing (lookup s (tagsKey x.ID)) = true
  · simp [h, foldl_saddEntry_setOrMissing]
  · have h' : setOrMissing (lookup s (tagsKey x.ID)) = false := by simpa using h
    simp [h', foldl_saddEntry_wrongType]

/-- C1 (as stated, refuted): a record saved over a tag set that an earlier save left behind,
also after the record key was deleted in between, reads back with the earlier tag as well, so
its tags are not the tags it was saved with. -/
theorem tag_round_trip_counterexample :
    GetImage (SaveImage (SaveImage [] catImage).1 catImageRetagged).1 catImageRetagged.ID
        = Except.ok (some { catImageRetagged with Tags := ["cat", "cute"] })
      ∧ GetImage (SaveImage (DEL (SaveImage [] catImage).1 (imageKey catImage.ID))
          catImageRetagged).1 catImageRetagged.ID
        = Except.ok (some { catImageRetagged with Tags := ["cat", "cute"] })
      ∧ "cat" ∉ catImageRetagged.Tags := by
  decide

/-- C1 (amended): when the key `image:<id>:tags` is missing or holds a set, `GetImage` after
`SaveImage x` returns `x` with a tag list whose members are exactly the tags of `x` together
with the members the tag set held before the save. -/
theorem tag_round_trip_merge (s : Store) (x : Image)
    (h : setOrMissing (lookup s (tagsKey x.ID)) = true) :
    ∃ r : Image, GetImage (SaveImage s x).1 x.ID = Except.ok (some r)
      ∧ { r with Tags := x.Tags } = x
      ∧ ∀ t, t ∈ r.Tags ↔ t ∈ x.Tags ∨ t ∈ membersOf (lookup s (tagsKey x.ID)) := by
  refine ⟨{ x with Tags := membersOf (x.Tags.foldl saddEntry (lookup s (tagsKey x.ID))) },
    ?_, rfl, ?_⟩
  · rw [GetImage_SaveImage, if_pos h]
  · intro t
    rw [mem_membersOf_foldl _ _ _ h]
    exact Or.comm

/-- C1 (amended), at the store left by an earlier save of the same id. -/
theorem tag_round_trip_merge_witness :
    ∃ r : Image,
      GetImage (SaveImage (SaveImage [] catImage).1 catImageRetagged).1 catImageRetagged.ID
          = Except.ok (some r)
      ∧ { r with Tags := catImageRetagged.Tags } = catImageRetagged
      ∧ ∀ t, t ∈ r.Tags ↔ t ∈ catImageRetagged.Tags
          ∨ t ∈ membersOf (lookup (SaveImage [] catImage).1 (tagsKey catImageRetagged.ID)) :=
  tag_round_trip_merge (SaveImage [] catImage).1 catImageRetagged (by decide)

/-- C2 (as stated, refuted): after saving a record without tags into an empty store the
tag-set key does not exist, while the record key does. -/
theorem ttl_sync_counterexample :
    TTL (SaveImage [] plainImage).1 (imageKey plainImage.ID) = some (some imageTTL)
      ∧ TTL (SaveImage [] plainImage).1 (tagsKey plainImage.ID) = none := by
  decide

/-- C2 (amended): after `SaveImage x` the record key and the ownership-set key exist with a
time to live of 30 days; the tag-set key exists with the same time to live unless `x` has no
tags and the key was missing before, in which case it is still missing. -/
theorem ttl_sync (s : Store) (x : Image) :
    TTL (SaveImage s x).1 (imageKey x.ID) = some (some imageTTL)
      ∧ TTL (SaveImage s x).1 (userImagesKey x.UserID) = some (some imageTTL)
      ∧ TTL (SaveImage s x).1 (tagsKey x.ID)
          = (if x.Tags = [] ∧ lookup s (tagsKey x.ID) = none then none
              else some (some imageTTL))
      ∧ imageTTL = 30 * 24 * 60 * 60 := by
  have hKT := imageKey_ne_tagsKey x.ID
  have hKU := imageKey_ne_userImagesKey x.ID x.UserID
  have hTU := tagsKey_ne_userImagesKey x.ID x.UserID
  refine ⟨?_, ?_, ?_, by decide⟩
  · simp [TTL, lookup_SaveImage]
  · simp only [TTL, lookup_SaveImage, Ne.symm hKU, Ne.symm hTU, if_false, if_true]
    cases h : saddEntry (lookup s (userImagesKey x.UserID)) x.ID with
    | none => exact absurd h (saddEntry_ne_none _ _)
    | some e => simp [expireEntry]
  · simp only [TTL, lookup_SaveImage, Ne.symm hKT, if_false, if_true]
    cases h : x.Tags.foldl saddEntry (lookup s (tagsKey x.ID)) with
    | none =>
      have := (foldl_saddEntry_eq_none _ _).1 h
      simp [expireEntry, this.1, this.2]
    | some e =>
      have hne : ¬ (x.Tags = [] ∧ lookup s (tagsKey x.ID) = none) := by
        intro hc
        have := (foldl_saddEntry_eq_none x.Tags (lookup s (tagsKey x.ID))).2 ⟨hc.2, hc.1⟩
        rw [h] at this
        exact absurd this (by simp)
      simp [expireEntry, hne]

/-! ## Saving twice -/

theorem SADD_noop (s : Store) (k m : String) (hne : lookup s k ≠ none)
    (h : ∀ ms ttl, lookup s k = some ⟨Value.set ms, ttl⟩ → m ∈ ms) : (SADD s k m).1 = s := by
  unfold SADD
  split
  · rename_i hnone
    exact absurd hnone hne
  · rename_i ms ttl heq
    simp [h ms ttl heq]
  · rfl

theorem saddAll_noop (tags : List String) (s : Store) (k : String)
    (hne : tags ≠ [] → lookup s k ≠ none)
    (h : ∀ ms ttl, lookup s k = some ⟨Value.set ms, ttl⟩ → ∀ t ∈ tags, t ∈ ms) :
    (TxPipelined s (tags.map (fun tag => Cmd.sadd k tag))).1 = s := by
  induction tags with
  | nil => rfl
  | cons a ts ih =>
    have hs : lookup s k ≠ none := hne (by simp)
    have h1 : (SADD s k a).1 = s :=
      SADD_noop s k a hs (fun ms ttl heq => h ms ttl heq a (by simp))
    simp only [List.map_cons, TxPipelined, Cmd.run, h1]
    exact ih (fun _ => hs) (fun ms ttl heq t ht => h ms ttl heq t (by simp [ht]))

theorem EXPIRE_noop (s : Store) (k : String) (t : Nat)
    (h : ∀ e, lookup s k = some e → e.ttl = some t) : EXPIRE s k t = s := by
  unfold EXPIRE
  cases hl : lookup s k with
  | none => rfl
  | some e =>
    have := h e hl
    obtain ⟨v, ttl⟩ := e
    simp only at this
    subst this
    exact put_eq_self s k _ hl

theorem expireEntry_ttl (o : Option Entry) (t : Nat) (e : Entry)
    (h : expireEntry o t = some e) : e.ttl = some t := by
  cases o with
  | none => simp [expireEntry] at h
  | some e0 =>
    simp [expireEntry] at h
    rw [← h]

/-- C3: saving the same record a second time, at the same instant, leaves the keyspace
(record value, tag set, ownership set and every time to live) as the first save left it. -/
theorem SaveImage_idempotent (s : Store) (x : Image) :
    (SaveImage (SaveImage s x).1 x).1 = (SaveImage s x).1 := by
  have hKT := imageKey_ne_tagsKey x.ID
  have hKU := imageKey_ne_userImagesKey x.ID x.UserID
  have hTU := tagsKey_ne_userImagesKey x.ID x.UserID
  generalize hs' : (SaveImage s x).1 = s'
  have hK : lookup s' (imageKey x.ID) = some ⟨Value.str (marshalImage x), some imageTTL⟩ := by
    rw [← hs', lookup_SaveImage]; simp
  have hT : lookup s' (tagsKey x.ID)
      = expireEntry (x.Tags.foldl saddEntry (lookup s (tagsKey x.ID))) imageTTL := by
    rw [← hs', lookup_SaveImage]; simp [Ne.symm hKT]
  have hU : lookup s' (userImagesKey x.UserID)
      = expireEntry (saddEntry (lookup s (userImagesKey x.UserID)) x.ID) imageTTL := by
    rw [← hs', lookup_SaveImage]; simp [Ne.symm hKU, Ne.symm hTU]
  -- the tag entry already holds every tag of `x`
  have hTne : x.Tags ≠ [] → lookup s' (tagsKey x.ID) ≠ none := by
    intro hne hnone
    rw [hT] at hnone
    cases hf : x.Tags.foldl saddEntry (lookup s (tagsKey x.ID)) with
    | none => exact hne ((foldl_saddEntry_eq_none _ _).1 hf).2
    | some e => simp [hf, expireEntry] at hnone
  have hTmem : ∀ ms ttl, lookup s' (tagsKey x.ID) = some ⟨Value.set ms, ttl⟩ →
      ∀ t ∈ x.Tags, t ∈ ms := by
    intro ms ttl heq t ht
    have hm := membersOf_of_eq_set _ ms ttl heq
    rw [hT, membersOf_expireEntry, setOrMissing_expireEntry] at hm
    by_cases hsm : setOrMissing (lookup s (tagsKey x.ID)) = true
    · rw [← hm.1, mem_membersOf_foldl _ _ _ hsm]
      exact Or.inr ht
    · have hsm' : setOrMissing (lookup s (tagsKey x.ID)) = false := by simpa using hsm
      rw [foldl_saddEntry_wrongType _ _ hsm'] at hm
      exact absurd hm.2 hsm
  have hUne : lookup s' (userImagesKey x.UserID) ≠ none := by
    rw [hU]
    cases hf : saddEntry (lookup s (userImagesKey x.UserID)) x.ID with
    | none => exact absurd hf (saddEntry_ne_none _ _)
    | some e => simp [expireEntry]
  have hUmem : ∀ ms ttl, lookup s' (userImagesKey x.UserID) = some ⟨Value.set ms, ttl⟩ →
      x.ID ∈ ms := by
    intro ms ttl heq
    have hm := membersOf_of_eq_set _ ms ttl heq
    rw [hU, membersOf_expireEntry, setOrMissing_expireEntry] at hm
    by_cases hsm : setOrMissing (lookup s (userImagesKey x.UserID)) = true
    · rw [← hm.1, mem_membersOf_saddEntry _ _ _ hsm]
      exact Or.inr rfl
    · have hsm' : setOrMissing (lookup s (userImagesKey x.UserID)) = false := by simpa using hsm
      rw [saddEntry_wrongType _ _ hsm'] at hm
      exact absurd hm.2 hsm
  -- the second transaction, command by command
  unfold SaveImage saveImageCmds
  rw [TxPipelined_append, TxPipelined_append]
  simp only [TxPipelined, Cmd.run]
  have e1 : (TxPipelined (SET s' (imageKey x.ID) (marshalImage x))
      (x.Tags.map (fun tag => Cmd.sadd (tagsKey x.ID) tag))).1
        = SET s' (imageKey x.ID) (marshalImage x) := by
    apply saddAll_noop
    · intro hne
      rw [lookup_SET, if_neg hKT]
      exact hTne hne
    · intro ms ttl heq
      rw [lookup_SET, if_neg hKT] at heq
      exact hTmem ms ttl heq
  have e2 : (SADD (SET s' (imageKey x.ID) (marshalImage x)) (userImagesKey x.UserID) x.ID).1
      = SET s' (imageKey x.ID) (marshalImage x) := by
    apply SADD_noop
    · rw [lookup_SET, if_neg hKU]
      exact hUne
    · intro ms ttl heq
      rw [lookup_SET, if_neg hKU] at heq
      exact hUmem ms ttl heq
  have e3 : EXPIRE (SET s' (imageKey x.ID) (marshalImage x)) (imageKey x.ID) imageTTL = s' := by
    unfold EXPIRE
    rw [lookup_SET, if_pos rfl]
    simp only [SET, put_put]
    exact put_eq_self s' _ _ hK
  have e4 : EXPIRE s' (tagsKey x.ID) imageTTL = s' := by
    apply EXPIRE_noop
    intro e he
    rw [hT] at he
    exact expireEntry_ttl _ _ _ he
  have e5 : EXPIRE s' (userImagesKey x.UserID) imageTTL = s' := by
    apply EXPIRE_noop
    intro e he
    rw [hU] at he
    exact expireEntry_ttl _ _ _ he
  rw [e1, e2, e3, e4, e5]

/-! ## Reading a record -/

/-- C4 (as stated, refuted): once a view has been counted a value is stored under
`image:views`, yet `GetImage "views"` returns an error, not a record. -/
theorem GetImage_counterexample :
    lookup (IncrementView [] "h1").1 (imageKey "views") ≠ none
      ∧ GetImage (IncrementView [] "h1").1 "views" = Except.error Err.wrongType := by
  decide

/-- The three outcomes of `GetImage`, by what the keyspace holds. -/
theorem GetImage_cases (s : Store) (id : String) :
    (GetImage s id = Except.ok none ↔ lookup s (imageKey id) = none)
      ∧ (∀ r, GetImage s id = Except.ok (some r) ↔
          ∃ data ttl img, lookup s (imageKey id) = some ⟨Value.str data, ttl⟩
            ∧ unmarshalImage data = Except.ok img
            ∧ setOrMissing (lookup s (tagsKey id)) = true
            ∧ r = { img with Tags := membersOf (lookup s (tagsKey id)) })
      ∧ ((∃ e, GetImage s id = Except.error e) ↔
          lookup s (imageKey id) ≠ none ∧
            ¬ ∃ data ttl img, lookup s (imageKey id) = some ⟨Value.str data, ttl⟩
              ∧ unmarshalImage data = Except.ok img
              ∧ setOrMissing (lookup s (tagsKey id)) = true) := by
  cases hl : lookup s (imageKey id) with
  | none => simp [GetImage, GET, hl]
  | some e =>
    obtain ⟨v, ttl⟩ := e
    cases v with
    | set ms => simp [GetImage, GET, hl]
    | zset z => simp [GetImage, GET, hl]
    | str data =>
      cases hu : unmarshalImage data with
      | error e => simp [GetImage, GET, hl, hu]
      | ok img =>
        by_cases hsm : setOrMissing (lookup s (tagsKey id)) = true
        · have hG : GetImage s id
              = Except.ok (some { img with Tags := membersOf (lookup s (tagsKey id)) }) := by
            simp [GetImage, GET, hl, hu, SMEMBERS_eq, hsm]
          rw [hG]
          refine ⟨by simp, ?_, by simp [hu, hsm]⟩
          intro r
          constructor
          · intro h
            refine ⟨data, ttl, img, rfl, hu, hsm, ?_⟩
            simpa using h.symm
          · rintro ⟨data', ttl', img', h1, h2, -, h4⟩
            simp only [Option.some.injEq, Entry.mk.injEq, Value.str.injEq] at h1
            rw [← h1.1, hu] at h2
            simp only [Except.ok.injEq] at h2
            rw [h4, h2]
        · have hG : GetImage s id = Except.error Err.wrongType := by
            simp [GetImage, GET, hl, hu, SMEMBERS_eq, hsm]
          rw [hG]
          simp [hsm]

/-- C4 (amended): `GetImage id` reports not-found exactly when no value is stored under
`image:<id>`; it returns a record exactly when the value is a string that deserializes and
`image:<id>:tags` is missing or a set, and the record is then the deserialized one with its
tags replaced by the members of that set; in every remaining case it returns an error.
`GetImage` only reads: it yields no new keyspace. -/
theorem GetImage_contract (s : Store) (id : String) :
    (GetImage s id = Except.ok none ↔ lookup s (imageKey id) = none)
      ∧ (∀ r, GetImage s id = Except.ok (some r) ↔
          ∃ data ttl img, lookup s (imageKey id) = some ⟨Value.str data, ttl⟩
            ∧ unmarshalImage data = Except.ok img
            ∧ setOrMissing (lookup s (tagsKey id)) = true
            ∧ r = { img with Tags := membersOf (lookup s (tagsKey id)) })
      ∧ ((∃ e, GetImage s id = Except.error e) ↔
          lookup s (imageKey id) ≠ none ∧
            ¬ ∃ data ttl img, lookup s (imageKey id) = some ⟨Value.str data, ttl⟩
              ∧ unmarshalImage data = Except.ok img
              ∧ setOrMissing (lookup s (tagsKey id)) = true) :=
  GetImage_cases s id

/-! ## Search -/

theorem sliceFrom_imageKey (id : String) : sliceFrom 6 (imageKey id) = id := by
  have h : (imageKey id).data = ['i', 'm', 'a', 'g', 'e', ':'] ++ id.data := by
    simp [imageKey, String.data_append]
  apply String.ext
  simp [sliceFrom, h]

theorem imageKey_sliceFrom (key : String) (h : "image:".data.isPrefixOf key.data = true) :
    imageKey (sliceFrom 6 key) = key := by
  rw [List.isPrefixOf_iff_prefix] at h
  obtain ⟨t, ht⟩ := h
  have h6 : "image:".data = ['i', 'm', 'a', 'g', 'e', ':'] := rfl
  apply String.ext
  rw [← ht, h6]
  simp [imageKey, sliceFrom, String.data_append, ← ht, h6]

theorem mem_KEYS (s : Store) (p key : String) :
    key ∈ KEYS s p ↔ lookup s key ≠ none ∧ p.data.isPrefixOf key.data = true := by
  have hmem : ∀ t : Store, key ∈ t.map Prod.fst ↔ lookup t key ≠ none := by
    intro t
    induction t with
    | nil => simp [lookup]
    | cons q rest ih =>
      obtain ⟨k0, e0⟩ := q
      by_cases hk : k0 = key
      · simp [lookup_cons, hk]
      · simp [lookup_cons, hk, ih, Ne.symm hk]
  simp [KEYS, List.mem_filter, hmem]

theorem imageKey_isPrefixOf (id : String) :
    "image:".data.isPrefixOf (imageKey id).data = true := by
  rw [List.isPrefixOf_iff_prefix]
  exact ⟨id.data, by simp [imageKey, String.data_append]⟩

/-- An enumerated key exists, so `GetImage` on it never reports not-found. -/
theorem GetImage_enumerated_ne_none (s : Store) (key : String) (h : key ∈ KEYS s "image:") :
    GetImage s (sliceFrom 6 key) ≠ Except.ok none := by
  rw [mem_KEYS] at h
  intro hc
  have := ((GetImage_cases s (sliceFrom 6 key)).1).1 hc
  rw [imageKey_sliceFrom key h.2] at this
  exact h.1 this

theorem searchLoop_eq (s : Store) (query : String) (keys : List String) (images : List Image)
    (h : ∀ k ∈ keys, GetImage s (sliceFrom 6 k) ≠ Except.ok none) :
    searchLoop s query keys images
      = Except.ok (images ++ (keys.filterMap (recordAt s)).filter (matchesQuery query)) := by
  induction keys generalizing images with
  | nil => simp [searchLoop]
  | cons k ks ih =>
    have hk := h k (by simp)
    have ih' := fun imgs => ih imgs (fun k' hk' => h k' (by simp [hk']))
    unfold searchLoop
    cases hg : GetImage s (sliceFrom 6 k) with
    | error e => simp [ih', recordAt, hg]
    | ok o =>
      cases o with
      | none => exact absurd hg hk
      | some img =>
        by_cases hm : matchesQuery query img = true
        · have hm' := hm
          unfold matchesQuery at hm'
          simp [ih', recordAt, hg, hm, hm']
        · have hm' := hm
          unfold matchesQuery at hm'
          simp [ih', recordAt, hg, hm, hm']

/-- The records the scan of `SearchImages` collects before paging. -/
theorem searchLoop_KEYS (s : Store) (query : String) :
    searchLoop s query (KEYS s "image:") []
      = Except.ok ((storedRecords s).filter (matchesQuery query)) := by
  rw [searchLoop_eq s query _ [] (fun k hk => GetImage_enumerated_ne_none s k hk)]
  simp [storedRecords]

theorem mem_storedRecords (s : Store) (r : Image) :
    r ∈ storedRecords s ↔ ∃ id, GetImage s id = Except.ok (some r) := by
  unfold storedRecords
  rw [List.mem_filterMap]
  constructor
  · rintro ⟨key, -, hr⟩
    refine ⟨sliceFrom 6 key, ?_⟩
    unfold recordAt at hr
    split at hr
    · rename_i img hg
      simp only [Option.some.injEq] at hr
      rw [hg, hr]
    · simp at hr
  · rintro ⟨id, hg⟩
    refine ⟨imageKey id, ?_, ?_⟩
    · rw [mem_KEYS]
      refine ⟨?_, imageKey_isPrefixOf id⟩
      intro hnone
      have := ((GetImage_cases s id).1).2 hnone
      rw [hg] at this
      simp at this
    · simp [recordAt, sliceFrom_imageKey, hg]

theorem strContains_iff (str sub : String) :
    strContains str sub = true ↔ ∃ pre post : List Char, str.data = pre ++ sub.data ++ post := by
  unfold strContains
  rw [decide_eq_true_iff]
  constructor
  · rintro ⟨pre, post, h⟩
    exact ⟨pre, post, h.symm⟩
  · rintro ⟨pre, post, h⟩
    exact ⟨pre, post, h.symm⟩

theorem containsTagsLoop_iff (tags : List String) (q : String) :
    containsTagsLoop tags q = true ↔ ∃ t ∈ tags, strContains (toLower t) q = true := by
  induction tags with
  | nil => simp [containsTagsLoop]
  | cons a ts ih =>
    unfold containsTagsLoop
    by_cases h : strContains (toLower a) q = true
    · simp [h]
    · simp [h, ih]

/-- The test of the search loop decides the match after lowering. -/
theorem matchesQuery_iff (q : String) (r : Image) :
    matchesQuery q r = true ↔ MatchesLowered q r := by
  unfold matchesQuery MatchesLowered LoweredContains containsQuery containsTags
  rw [Bool.or_eq_true, strContains_iff, containsTagsLoop_iff]
  simp only [strContains_iff]

theorem forall₂_of_map_eq (l l' : List Char)
    (h : l.map unicodeToLower = l'.map unicodeToLower) :
    List.Forall₂ (fun c d => EqIgnoreCase c d = true) l l' := by
  induction l generalizing l' with
  | nil =>
    cases l' with
    | nil => exact List.Forall₂.nil
    | cons d ds => simp at h
  | cons c cs ih =>
    cases l' with
    | nil => simp at h
    | cons d ds =>
      simp only [List.map_cons, List.cons.injEq] at h
      refine List.Forall₂.cons ?_ (ih ds h.2)
      simp [EqIgnoreCase, h.1]

/-- A match after lowering is a case-insensitive match. -/
theorem CIContains_of_LoweredContains (str q : String) (h : LoweredContains str q) :
    CIContains str q := by
  obtain ⟨pre, post, h⟩ := h
  have h1 : str.data.map unicodeToLower
      = pre ++ (q.data.map unicodeToLower ++ post) := by
    rw [← List.append_assoc]
    exact h
  obtain ⟨l1, l23, hs, -, h23⟩ := List.map_eq_append_iff.1 h1
  obtain ⟨l2, l3, hs2, hmid, -⟩ := List.map_eq_append_iff.1 h23
  refine ⟨l1, l2, l3, ?_, forall₂_of_map_eq l2 q.data hmid⟩
  rw [hs, hs2, List.append_assoc]

theorem Matches_of_MatchesLowered (q : String) (r : Image) (h : MatchesLowered q r) :
    Matches q r := by
  rcases h with h | ⟨t, ht, h⟩
  · exact Or.inl (CIContains_of_LoweredContains _ _ h)
  · exact Or.inr ⟨t, ht, CIContains_of_LoweredContains _ _ h⟩

theorem wrapInt64_of_range (x : Int) (h1 : minInt ≤ x) (h2 : x ≤ maxInt) : wrapInt64 x = x := by
  unfold wrapInt64
  unfold minInt at h1
  unfold maxInt at h2
  omega

/-- The page of `images` when `offset + limit` does not overflow. -/
theorem pageOf_eq (images : List Image) (offset limit : Int) (ho : 0 ≤ offset)
    (hl : 0 ≤ limit) (hsum : offset + limit ≤ maxInt) :
    pageOf images offset limit = Except.ok ((images.drop offset.toNat).take limit.toNat) := by
  have hw : wrapInt64 (offset + limit) = offset + limit :=
    wrapInt64_of_range _ (by unfold minInt; omega) hsum
  unfold pageOf
  simp only [hw]
  by_cases h1 : offset ≥ (images.length : Int)
  · have : images.drop offset.toNat = [] := by
      apply List.drop_eq_nil_of_le
      omega
    simp [h1, this]
  · simp only [h1, if_false]
    by_cases h2 : offset + limit > (images.length : Int)
    · have hc : 0 ≤ offset ∧ offset ≤ (images.length : Int) := ⟨ho, by omega⟩
      simp only [h2, if_true, hc, and_self]
      congr 1
      rw [List.take_of_length_le, List.take_of_length_le]
      · simp only [List.length_drop]; omega
      · simp only [List.length_drop]; omega
    · have hc : 0 ≤ offset ∧ offset ≤ offset + limit := ⟨ho, by omega⟩
      simp only [h2, if_false, hc, and_self, if_true]
      congr 2
      omega

/-- Paging of `SearchImages` when `offset + limit` does not overflow: the matching records
in key enumeration order, cut to `[offset, offset + limit)`. -/
theorem SearchImages_paging (s : Store) (q : String) (offset limit : Int) (ho : 0 ≤ offset)
    (hl : 0 ≤ limit) (hsum : offset + limit ≤ maxInt) :
    SearchImages s q offset limit
      = Except.ok ((((storedRecords s).filter (matchesQuery q)).drop offset.toNat).take
          limit.toNat) := by
  unfold SearchImages
  rw [searchLoop_KEYS]
  exact pageOf_eq _ offset limit ho hl hsum

set_option maxRecDepth 20000 in
/-- The final sigma and the capital sigma are one letter up to case: the capital is the
uppercase form of both. -/
theorem final_sigma_EqIgnoreCase : EqIgnoreCase 'ς' 'Σ' = true := by decide

/-- C5 (as stated, refuted): the stored record `h5` has the description `Οδυσσέας`, which
contains the query `ΟΔΥΣΣΈΑΣ` as a case-insensitive substring (each letter of the query is the
capital of the letter under it, the final sigma included), yet the search omits it:
`strings.ToLower` turns the capital sigma into the medial sigma, never into the final one. -/
theorem search_correctness_counterexample :
    GetImage (SaveImage [] greekImage).1 "h5" = Except.ok (some greekImage)
      ∧ Matches "ΟΔΥΣΣΈΑΣ" greekImage
      ∧ toLower "ΟΔΥΣΣΈΑΣ" = "οδυσσέασ"
      ∧ toLower greekImage.Description = "οδυσσέας"
      ∧ SearchImages (SaveImage [] greekImage).1 "ΟΔΥΣΣΈΑΣ" 0 10 = Except.ok [] := by
  refine ⟨by decide, ?_, by decide, by decide, by decide⟩
  refine Or.inl ⟨[], greekImage.Description.data, [], by simp, ?_⟩
  exact List.Forall₂.cons (by decide) (List.Forall₂.cons (by decide)
    (List.Forall₂.cons (by decide) (List.Forall₂.cons (by decide)
    (List.Forall₂.cons (by decide) (List.Forall₂.cons (by decide)
    (List.Forall₂.cons (by decide)
    (List.Forall₂.cons final_sigma_EqIgnoreCase List.Forall₂.nil)))))))

/-- C5 (amended): with offset `0` and a limit no smaller than the number of stored records,
`SearchImages` returns the stored image records, one per readable record key in enumeration
order, that match the query after lowering: a record is returned exactly when `GetImage`
reads it under some id and its description or one of its live tags, lowered by
`strings.ToLower`, contains the lowered query.  Every record returned contains the query as a
case-insensitive substring.  A key that holds no string (a tag set, the ranking) yields no
record. -/
theorem search_correctness (s : Store) (q : String) (limit : Int)
    (hlim : ((storedRecords s).length : Int) ≤ limit) (hint : limit ≤ maxInt) :
    ∃ L : List Image, SearchImages s q 0 limit = Except.ok L
      ∧ L = (storedRecords s).filter (matchesQuery q)
      ∧ (∀ r, r ∈ L ↔ (∃ id, GetImage s id = Except.ok (some r)) ∧ MatchesLowered q r)
      ∧ (∀ r, r ∈ L → Matches q r)
      ∧ (∀ key ∈ KEYS s "image:", (∀ data ttl, lookup s key ≠ some ⟨Value.str data, ttl⟩) →
          recordAt s key = none) := by
  refine ⟨(storedRecords s).filter (matchesQuery q), ?_, rfl, ?_, ?_, ?_⟩
  · rw [SearchImages_paging s q 0 limit (le_refl 0) (by omega) (by omega)]
    congr 1
    have hlen : ((storedRecords s).filter (matchesQuery q)).length ≤ (storedRecords s).length :=
      List.length_filter_le _ _
    simp only [Int.toNat_zero, List.drop_zero]
    apply List.take_of_length_le
    omega
  · intro r
    rw [List.mem_filter, mem_storedRecords, matchesQuery_iff]
  · intro r hr
    rw [List.mem_filter, matchesQuery_iff] at hr
    exact Matches_of_MatchesLowered q r hr.2
  · intro key hkey hns
    rw [mem_KEYS] at hkey
    unfold recordAt
    split
    · rename_i img hg
      obtain ⟨data, ttl, _, hlk, -⟩ := ((GetImage_cases s (sliceFrom 6 key)).2.1 img).1 hg
      rw [imageKey_sliceFrom key hkey.2] at hlk
      exact absurd hlk (hns data ttl)
    · rfl

/-- C5 (amended), on the sample store: both records are found by the query `CAT`, one
through its description `A cat` and one through its tag `Catalog`; and the record described as
`CAFÉ` is found by the query `é`. -/
theorem search_correctness_witness :
    SearchImages sampleStore "CAT" 0 10 = Except.ok [catImage, dogImage]
      ∧ SearchImages (SaveImage [] cafeImage).1 "é" 0 10 = Except.ok [cafeImage]
      ∧ ∃ L : List Image, SearchImages sampleStore "CAT" 0 10 = Except.ok L
        ∧ L = (storedRecords sampleStore).filter (matchesQuery "CAT")
        ∧ (∀ r, r ∈ L ↔
            (∃ id, GetImage sampleStore id = Except.ok (some r)) ∧ MatchesLowered "CAT" r)
        ∧ (∀ r, r ∈ L → Matches "CAT" r)
        ∧ (∀ key ∈ KEYS sampleStore "image:",
            (∀ data ttl, lookup sampleStore key ≠ some ⟨Value.str data, ttl⟩) →
              recordAt sampleStore key = none) :=
  ⟨by decide, by decide, search_correctness sampleStore "CAT" 10 (by decide) (by decide)⟩

/-- C6 (the code at the failing input): on the sample store the query `a` matches two
records, and the page at offset `1` with the largest `int` as limit is not the second record:
`offset + limit` wraps around to a negative end and the slice expression panics. -/
theorem search_paging_overflow :
    SearchImages sampleStore "a" 0 10 = Except.ok [catImage, dogImage]
      ∧ SearchImages sampleStore "a" 1 9223372036854775807 = Except.error Err.sliceBounds := by
  decide

/-! ## The ranking -/

theorem excessBits_of_lt (fuel x : Nat) (h : x < 2 ^ 53) : excessBits fuel x = 0 := by
  cases fuel with
  | zero => rfl
  | succ n =>
    unfold excessBits
    rw [if_pos h]

theorem roundF64_of_lt (x : Nat) (h : x < 2 ^ 53) : roundF64 x = x := by
  unfold roundF64
  rw [excessBits_of_lt 1024 x h]
  simp only [Nat.pow_zero, Nat.mod_one, Nat.div_one, Nat.mul_zero, Nat.mul_one]
  simp

theorem roundF64_of_le (x : Nat) (h : x ≤ 2 ^ 53) : roundF64 x = x := by
  rcases Nat.lt_or_ge x (2 ^ 53) with hlt | hge
  · exact roundF64_of_lt x hlt
  · have hx : x = 2 ^ 53 := Nat.le_antisymm h hge
    subst hx
    decide

theorem div_excessBits_ge (fuel x : Nat) (h : 2 ^ 52 ≤ x) :
    2 ^ 52 ≤ x / 2 ^ excessBits fuel x := by
  induction fuel generalizing x with
  | zero =>
    unfold excessBits
    rw [Nat.pow_zero, Nat.div_one]
    exact h
  | succ n ih =>
    unfold excessBits
    by_cases hx : x < 2 ^ 53
    · rw [if_pos hx, Nat.pow_zero, Nat.div_one]
      exact h
    · rw [if_neg hx]
      have h2 : 2 ^ 52 ≤ x / 2 := by omega
      have := ih (x / 2) h2
      have e : 2 ^ (excessBits n (x / 2) + 1) = 2 * 2 ^ excessBits n (x / 2) := by
        rw [Nat.pow_succ, Nat.mul_comm]
      rw [e, ← Nat.div_div_eq_div_mul]
      exact this

theorem excessBits_pos (fuel x : Nat) (h : 2 ^ 53 ≤ x) : 1 ≤ excessBits (fuel + 1) x := by
  unfold excessBits
  have hx : ¬ x < 2 ^ 53 := by omega
  rw [if_neg hx]
  omega

/-- Rounding to float64 never takes a number from `2 ^ 53` upwards below `2 ^ 53`. -/
theorem le_roundF64 (x : Nat) (h : 2 ^ 53 ≤ x) : 2 ^ 53 ≤ roundF64 x := by
  have hq : 2 ^ 52 ≤ x / 2 ^ excessBits 1024 x := div_excessBits_ge 1024 x (by omega)
  have he : 1 ≤ excessBits 1024 x := excessBits_pos 1023 x h
  have hp : 2 ≤ 2 ^ excessBits 1024 x := by
    calc 2 = 2 ^ 1 := by norm_num
      _ ≤ 2 ^ excessBits 1024 x := Nat.pow_le_pow_right (by norm_num) he
  have hlow : 2 ^ 53 ≤ x / 2 ^ excessBits 1024 x * 2 ^ excessBits 1024 x := by
    calc 2 ^ 53 = 2 ^ 52 * 2 := by norm_num
      _ ≤ x / 2 ^ excessBits 1024 x * 2 ^ excessBits 1024 x := Nat.mul_le_mul hq hp
  unfold roundF64
  simp only
  split
  · exact hlow
  · exact Nat.le_trans hlow (Nat.mul_le_mul_right _ (Nat.le_succ _))

/-- Rounding the successor of a score: exact below `2 ^ 53`, never below `2 ^ 53` above. -/
theorem min_le_roundF64 (x : Nat) : min x (2 ^ 53) ≤ roundF64 x := by
  rcases Nat.lt_or_ge x (2 ^ 53) with hlt | hge
  · rw [roundF64_of_lt x hlt]
    exact Nat.min_le_left _ _
  · exact Nat.le_trans (Nat.min_le_right _ _) (le_roundF64 x hge)

theorem roundF64_saturated : roundF64 (2 ^ 53 + 1) = 2 ^ 53 := by decide

theorem scoreIn_zincrList (l : List (String × Nat)) (m : String) (n : Nat) (m' : String) :
    scoreIn (zincrList l m n) m'
      = if m = m' then roundF64 (scoreIn l m + n) else scoreIn l m' := by
  induction l with
  | nil => by_cases h : m = m' <;> simp [zincrList, scoreIn, h]
  | cons p rest ih =>
    obtain ⟨m0, sc⟩ := p
    by_cases h0 : m0 = m
    · subst h0
      by_cases h : m0 = m' <;> simp [zincrList, scoreIn, h]
    · by_cases h : m = m'
      · subst h
        simp [zincrList, scoreIn, h0, ih]
      · by_cases h1 : m0 = m'
        · subst h1
          simp [zincrList, scoreIn, h0, h]
        · simp [zincrList, scoreIn, h0, h, h1, ih]

theorem rankingOf_IncrementView (s : Store) (id : String)
    (h : zsetOrMissing (lookup s "image:views") = true) :
    rankingOf (IncrementView s id).1 = zincrList (rankingOf s) id 1
      ∧ zsetOrMissing (lookup (IncrementView s id).1 "image:views") = true := by
  unfold IncrementView ZINCRBY rankingOf
  cases hl : lookup s "image:views" with
  | none => simp [lookup_put, ZSet.incr, zsetOrMissing]
  | some e =>
    obtain ⟨v, ttl⟩ := e
    cases v with
    | zset z => simp [lookup_put, ZSet.incr, zsetOrMissing]
    | str d => simp [hl, zsetOrMissing] at h
    | set ms => simp [hl, zsetOrMissing] at h

theorem viewScore_IncrementView (s : Store) (id id' : String)
    (h : zsetOrMissing (lookup s "image:views") = true) :
    viewScore (IncrementView s id).1 id'
      = if id = id' then roundF64 (viewScore s id + 1) else viewScore s id' := by
  unfold viewScore
  rw [(rankingOf_IncrementView s id h).1, scoreIn_zincrList]

/-- The ranking after `k` calls of `IncrementView id`: the other scores are untouched; the
score of `id` is its old value plus `k`, capped at `2 ^ 53`, when the old value was at most
`2 ^ 53`; and it is never below that capped sum. -/
theorem IncrementViewTimes_spec (k : Nat) (s : Store) (id : String)
    (h : zsetOrMissing (lookup s "image:views") = true) :
    zsetOrMissing (lookup (IncrementViewTimes k s id) "image:views") = true
      ∧ (∀ id', id' ≠ id → viewScore (IncrementViewTimes k s id) id' = viewScore s id')
      ∧ (viewScore s id ≤ 2 ^ 53 →
          viewScore (IncrementViewTimes k s id) id = min (viewScore s id + k) (2 ^ 53))
      ∧ min (viewScore s id + k) (2 ^ 53) ≤ viewScore (IncrementViewTimes k s id) id := by
  induction k generalizing s with
  | zero =>
    refine ⟨h, fun id' _ => rfl, fun hle => ?_, ?_⟩
    · simp only [IncrementViewTimes, Nat.add_zero]
      omega
    · simp only [IncrementViewTimes, Nat.add_zero]
      omega
  | succ k ih =>
    have h1 := (rankingOf_IncrementView s id h).2
    obtain ⟨ih1, ih2, ih3, ih4⟩ := ih (IncrementView s id).1 h1
    have hown : viewScore (IncrementView s id).1 id = roundF64 (viewScore s id + 1) := by
      rw [viewScore_IncrementView s id id h, if_pos rfl]
    have hmin := min_le_roundF64 (viewScore s id + 1)
    refine ⟨ih1, fun id' hne => ?_, fun hle => ?_, ?_⟩
    · simp only [IncrementViewTimes]
      rw [ih2 id' hne, viewScore_IncrementView s id id' h, if_neg (Ne.symm hne)]
    · simp only [IncrementViewTimes]
      rcases Nat.lt_or_ge (viewScore s id) (2 ^ 53) with hlt | hge
      · have hr : roundF64 (viewScore s id + 1) = viewScore s id + 1 :=
          roundF64_of_le _ (by omega)
        rw [ih3 (by rw [hown, hr]; omega), hown, hr]
        omega
      · have heq : viewScore s id = 2 ^ 53 := Nat.le_antisymm hle hge
        have hr : roundF64 (viewScore s id + 1) = 2 ^ 53 := by
          rw [heq]
          exact roundF64_saturated
        rw [ih3 (by rw [hown, hr]), hown, hr, heq]
        omega
    · simp only [IncrementViewTimes]
      rw [hown] at ih4
      omega

/-- C7 (as stated, refuted): Redis keeps scores as float64.  From the empty store,
`2 ^ 53 + 1` calls of `IncrementView h1` raise the score of `h1` by `2 ^ 53` only; and in the
store whose ranking holds `h1` with score `2 ^ 53` one more call changes nothing. -/
theorem ranking_increment_counterexample :
    viewScore [] "h1" = 0
      ∧ viewScore (IncrementViewTimes 9007199254740993 [] "h1") "h1" = 9007199254740992
      ∧ viewScore saturatedStore "h1" = 9007199254740992
      ∧ viewScore (IncrementView saturatedStore "h1").1 "h1" = 9007199254740992 := by
  refine ⟨rfl, ?_, by decide, by decide⟩
  have h := (IncrementViewTimes_spec 9007199254740993 [] "h1" rfl).2.2.1
    (by simp [viewScore, rankingOf, lookup, scoreIn])
  rw [h]
  simp [viewScore, rankingOf, lookup, scoreIn]

/-- C7 (amended): when the key `image:views` is missing or holds a sorted set, `k` calls of
`IncrementView id` leave the score of every other id as it was, and raise the score of `id`,
an absent id counting as `0`, by exactly `k` as long as the raised score does not exceed
`2 ^ 53`; a score of `2 ^ 53` is left as it is by any number of further calls. -/
theorem ranking_increment (s : Store) (id : String) (k : Nat)
    (h : zsetOrMissing (lookup s "image:views") = true) :
    (∀ id', id' ≠ id → viewScore (IncrementViewTimes k s id) id' = viewScore s id')
      ∧ (viewScore s id + k ≤ 2 ^ 53 →
          viewScore (IncrementViewTimes k s id) id = viewScore s id + k)
      ∧ (viewScore s id = 2 ^ 53 → viewScore (IncrementViewTimes k s id) id = 2 ^ 53) := by
  obtain ⟨-, h2, h3, -⟩ := IncrementViewTimes_spec k s id h
  refine ⟨h2, fun hk => ?_, fun heq => ?_⟩
  · rw [h3 (by omega)]
    omega
  · rw [h3 (by omega), heq]
    omega

/-- C7 (amended), on the sample store, whose ranking holds `h3` with score `1`. -/
theorem ranking_increment_witness :
    (∀ id', id' ≠ "h3" →
        viewScore (IncrementViewTimes 3 sampleStore "h3") id' = viewScore sampleStore id')
      ∧ viewScore (IncrementViewTimes 3 sampleStore "h3") "h3" = viewScore sampleStore "h3" + 3 :=
  ⟨(ranking_increment sampleStore "h3" 3 (by decide)).1,
    (ranking_increment sampleStore "h3" 3 (by decide)).2.1 (by decide)⟩

/-! ### Reading the top of the ranking -/

theorem zrevLE_iff (a b : String × Nat) :
    zrevLE a b = true ↔ b.2 < a.2 ∨ (b.2 = a.2 ∧ b.1 ≤ a.1) := by
  simp [zrevLE]

theorem zrevLE_score (a b : String × Nat) (h : zrevLE a b = true) : b.2 ≤ a.2 := by
  rcases (zrevLE_iff a b).1 h with h | h
  · exact Nat.le_of_lt h
  · exact Nat.le_of_eq h.1

theorem zrevLE_total (a b : String × Nat) : zrevLE a b = true ∨ zrevLE b a = true := by
  rw [zrevLE_iff, zrevLE_iff]
  rcases Nat.lt_trichotomy a.2 b.2 with h | h | h
  · exact Or.inr (Or.inl h)
  · rcases le_total a.1 b.1 with h' | h'
    · exact Or.inr (Or.inr ⟨h, h'⟩)
    · exact Or.inl (Or.inr ⟨h.symm, h'⟩)
  · exact Or.inl (Or.inl h)

theorem zrevLE_trans (a b c : String × Nat) (h1 : zrevLE a b = true) (h2 : zrevLE b c = true) :
    zrevLE a c = true := by
  rw [zrevLE_iff] at *
  rcases h1 with h1 | ⟨h1, h1'⟩
  · rcases h2 with h2 | ⟨h2, -⟩
    · exact Or.inl (Nat.lt_trans h2 h1)
    · exact Or.inl (h2 ▸ h1)
  · rcases h2 with h2 | ⟨h2, h2'⟩
    · exact Or.inl (h1 ▸ h2)
    · exact Or.inr ⟨h2.trans h1, le_trans h2' h1'⟩

/-- The ranking in the order of `ZREVRANGE`. -/
theorem sorted_ranking (l : List (String × Nat)) :
    (l.insertionSort (fun a b => zrevLE a b = true)).Sorted (fun a b => zrevLE a b = true) := by
  haveI : IsTotal (String × Nat) (fun a b => zrevLE a b = true) := ⟨zrevLE_total⟩
  haveI : IsTrans (String × Nat) (fun a b => zrevLE a b = true) := ⟨zrevLE_trans⟩
  exact List.sorted_insertionSort _ l

theorem rankingOf_nodup (s : Store) : ((rankingOf s).map Prod.fst).Nodup := by
  unfold rankingOf
  split
  · rename_i z _ _
    exact z.nodup
  · exact List.nodup_nil

theorem scoreIn_of_mem (l : List (String × Nat)) (h : (l.map Prod.fst).Nodup)
    (p : String × Nat) (hp : p ∈ l) : scoreIn l p.1 = p.2 := by
  induction l with
  | nil => simp at hp
  | cons q rest ih =>
    obtain ⟨m0, sc⟩ := q
    simp only [List.map_cons, List.nodup_cons] at h
    rcases List.mem_cons.1 hp with hq | hq
    · subst hq
      simp [scoreIn]
    · have hne : m0 ≠ p.1 := by
        intro hc
        exact h.1 (hc ▸ List.mem_map_of_mem Prod.fst hq)
      simp [scoreIn, hne, ih h.2 hq]

theorem scoreIn_of_not_mem (l : List (String × Nat)) (m : String)
    (h : m ∉ l.map Prod.fst) : scoreIn l m = 0 := by
  induction l with
  | nil => rfl
  | cons q rest ih =>
    obtain ⟨m0, sc⟩ := q
    simp only [List.map_cons, List.mem_cons, not_or] at h
    simp [scoreIn, Ne.symm h.1, ih h.2]

theorem mem_of_scoreIn_pos (l : List (String × Nat)) (m : String) (h : 0 < scoreIn l m) :
    (m, scoreIn l m) ∈ l := by
  induction l with
  | nil => simp [scoreIn] at h
  | cons q rest ih =>
    obtain ⟨m0, sc⟩ := q
    by_cases h0 : m0 = m
    · subst h0
      simp [scoreIn]
    · simp only [scoreIn, h0, if_false] at h ⊢
      exact List.mem_cons_of_mem _ (ih h)

/-- What `GetTop10Images` hands back, for every keyspace. -/
theorem returnedIds_GetTop10Images (s : Store) :
    returnedIds (GetTop10Images s)
      = (((rankingOf s).insertionSort (fun a b => zrevLE a b = true)).take 10).map Prod.fst := by
  unfold GetTop10Images ZREVRANGE rankingOf
  cases hl : lookup s "image:views" with
  | none => simp [returnedIds]
  | some e =>
    obtain ⟨v, ttl⟩ := e
    cases v <;> simp [returnedIds]

theorem top_mem (l : List (String × Nat)) (n : Nat) (p : String × Nat)
    (hp : p ∈ (l.insertionSort (fun a b => zrevLE a b = true)).take n) : p ∈ l :=
  (List.perm_insertionSort _ l).subset (List.mem_of_mem_take hp)

theorem top_nodup (l : List (String × Nat)) (n : Nat) (h : (l.map Prod.fst).Nodup) :
    (((l.insertionSort (fun a b => zrevLE a b = true)).take n).map Prod.fst).Nodup := by
  have hperm := (List.perm_insertionSort (fun a b => zrevLE a b = true) l).map Prod.fst
  have hnd := hperm.nodup_iff.2 h
  exact hnd.sublist ((List.take_sublist n _).map Prod.fst)

theorem top_pairwise (l : List (String × Nat)) (n : Nat) (h : (l.map Prod.fst).Nodup) :
    (((l.insertionSort (fun a b => zrevLE a b = true)).take n).map Prod.fst).Pairwise
      (fun a b => scoreIn l b ≤ scoreIn l a) := by
  rw [List.pairwise_map]
  have hs : ((l.insertionSort (fun a b => zrevLE a b = true)).take n).Pairwise
      (fun a b => zrevLE a b = true) :=
    List.Pairwise.sublist (List.take_sublist n _) (sorted_ranking l)
  refine List.Pairwise.imp_of_mem ?_ hs
  intro a b ha hb hab
  rw [scoreIn_of_mem l h a (top_mem l n a ha), scoreIn_of_mem l h b (top_mem l n b hb)]
  exact zrevLE_score a b hab

theorem top_bounds_rest (l : List (String × Nat)) (n : Nat) (h : (l.map Prod.fst).Nodup)
    (m : String)
    (hm : m ∉ ((l.insertionSort (fun a b => zrevLE a b = true)).take n).map Prod.fst)
    (i : String)
    (hi : i ∈ ((l.insertionSort (fun a b => zrevLE a b = true)).take n).map Prod.fst) :
    scoreIn l m ≤ scoreIn l i := by
  obtain ⟨p, hp, rfl⟩ := List.mem_map.1 hi
  rw [scoreIn_of_mem l h p (top_mem l n p hp)]
  by_cases hml : m ∈ l.map Prod.fst
  · obtain ⟨q, hq, rfl⟩ := List.mem_map.1 hml
    rw [scoreIn_of_mem l h q hq]
    have hqs : q ∈ l.insertionSort (fun a b => zrevLE a b = true) :=
      (List.perm_insertionSort _ l).symm.subset hq
    rw [← List.take_append_drop n (l.insertionSort (fun a b => zrevLE a b = true))] at hqs
    rcases List.mem_append.1 hqs with hq1 | hq2
    · exact absurd (List.mem_map_of_mem Prod.fst hq1) hm
    · have hs := sorted_ranking l
      unfold List.Sorted at hs
      rw [← List.take_append_drop n (l.insertionSort (fun a b => zrevLE a b = true)),
        List.pairwise_append] at hs
      exact zrevLE_score p q (hs.2.2 p hp q hq2)
  · rw [scoreIn_of_not_mem l m hml]
    exact Nat.zero_le _

theorem top_head (l : List (String × Nat)) (n : Nat)
    (h1 : String) (sc : Nat) (hmem : (h1, sc) ∈ l) (hsc : 3 ≤ sc)
    (hrest : ∀ p ∈ l, p.1 ≠ h1 → p.2 < 3) :
    (((l.insertionSort (fun a b => zrevLE a b = true)).take (n + 1)).map Prod.fst).head?
      = some h1 := by
  have hperm := List.perm_insertionSort (fun a b => zrevLE a b = true) l
  have hs := sorted_ranking l
  have hin : (h1, sc) ∈ l.insertionSort (fun a b => zrevLE a b = true) := hperm.symm.subset hmem
  cases hsort : l.insertionSort (fun a b => zrevLE a b = true) with
  | nil => rw [hsort] at hin; simp at hin
  | cons a0 tl =>
    rw [hsort] at hin hs hperm
    simp only [List.take_succ_cons, List.map_cons, List.head?_cons, Option.some.injEq]
    have ha0 : a0 ∈ l := hperm.subset (List.mem_cons_self a0 tl)
    rcases List.mem_cons.1 hin with heq | htl
    · rw [← heq]
    · have hle := zrevLE_score a0 (h1, sc) (List.rel_of_sorted_cons hs _ htl)
      by_contra hne
      have := hrest a0 ha0 hne
      simp only at hle
      omega

/-- C8: `GetTop10Images` returns at most 10 ids (10, or all of them when the ranking holds
fewer), all distinct members of the ranking `image:views`, in non-increasing score order, and
no id left out has a higher score than an id returned.  After three calls of
`IncrementView h1` on a ranking where every other score is below 3, the first id is `h1`. -/
theorem top10_order (s : Store) :
    (returnedIds (GetTop10Images s)).length ≤ 10
      ∧ (returnedIds (GetTop10Images s)).length = min 10 (rankingOf s).length
      ∧ (returnedIds (GetTop10Images s)).Nodup
      ∧ (∀ i ∈ returnedIds (GetTop10Images s), i ∈ (rankingOf s).map Prod.fst)
      ∧ (returnedIds (GetTop10Images s)).Pairwise (fun a b => viewScore s b ≤ viewScore s a)
      ∧ (∀ m, m ∉ returnedIds (GetTop10Images s) →
          ∀ i ∈ returnedIds (GetTop10Images s), viewScore s m ≤ viewScore s i)
      ∧ (∀ h1, zsetOrMissing (lookup s "image:views") = true →
          (∀ m, m ≠ h1 → viewScore s m < 3) →
          (returnedIds (GetTop10Images (IncrementViewTimes 3 s h1))).head? = some h1) := by
  have hnd := rankingOf_nodup s
  refine ⟨?_, ?_, ?_, ?_, ?_, ?_, ?_⟩
  · rw [returnedIds_GetTop10Images]
    simp only [List.length_map, List.length_take]
    omega
  · rw [returnedIds_GetTop10Images]
    simp only [List.length_map, List.length_take, List.length_insertionSort]
  · rw [returnedIds_GetTop10Images]
    exact top_nodup _ 10 hnd
  · rw [returnedIds_GetTop10Images]
    intro i hi
    obtain ⟨p, hp, rfl⟩ := List.mem_map.1 hi
    exact List.mem_map_of_mem Prod.fst (top_mem _ 10 p hp)
  · rw [returnedIds_GetTop10Images]
    exact top_pairwise _ 10 hnd
  · rw [returnedIds_GetTop10Images]
    intro m hm i hi
    exact top_bounds_rest _ 10 hnd m hm i hi
  · intro h1 hz hrest
    obtain ⟨-, hothers, -, hlow⟩ := IncrementViewTimes_spec 3 s h1 hz
    rw [returnedIds_GetTop10Images]
    have hnd' := rankingOf_nodup (IncrementViewTimes 3 s h1)
    have h3 : 3 ≤ scoreIn (rankingOf (IncrementViewTimes 3 s h1)) h1 := by
      unfold viewScore at hlow
      omega
    refine top_head _ 9 h1 _ (mem_of_scoreIn_pos _ h1 (by omega)) h3 ?_
    intro p hp hne
    have := hothers p.1 hne
    unfold viewScore at this
    rw [scoreIn_of_mem _ hnd' p hp] at this
    rw [this]
    exact hrest p.1 hne

/-- C8, on the sample store: `h1` is new to the ranking, `h3` has score `1`, and after three
views `h1` comes first. -/
theorem top10_order_witness :
    zsetOrMissing (lookup sampleStore "image:views") = true
      ∧ (∀ m, m ≠ "h1" → viewScore sampleStore m < 3)
      ∧ (returnedIds (GetTop10Images (IncrementViewTimes 3 sampleStore "h1"))).head?
          = some "h1" := by
  have hz : zsetOrMissing (lookup sampleStore "image:views") = true := by decide
  have hrest : ∀ m, m ≠ "h1" → viewScore sampleStore m < 3 := by
    intro m _
    have hr : rankingOf sampleStore = [("h3", 1)] := by decide
    unfold viewScore
    rw [hr]
    by_cases hm : "h3" = m <;> simp [scoreIn, hm]
  exact ⟨hz, hrest, (top10_order sampleStore).2.2.2.2.2.2 "h1" hz hrest⟩

/-! ## The handlers -/

theorem lookup_DEL (s : Store) (k k' : String) :
    lookup (DEL s k) k' = if k = k' then none else lookup s k' := by
  unfold DEL
  induction s with
  | nil => simp [lookup]
  | cons p rest ih =>
    obtain ⟨k0, e0⟩ := p
    simp only [ne_eq, decide_not] at ih
    by_cases h0 : k0 = k
    · subst h0
      by_cases hk : k0 = k'
      · simpa [List.filter_cons, hk] using ih
      · simpa [List.filter_cons, hk, lookup_cons] using ih
    · by_cases hk : k = k'
      · subst hk
        simpa [List.filter_cons, h0, lookup_cons] using ih
      · by_cases hk0 : k0 = k'
        · subst hk0
          simp [List.filter_cons, h0, lookup_cons, hk]
        · simpa [List.filter_cons, h0, lookup_cons, hk, hk0] using ih

theorem readFile_DeleteFile (fs : Files) (path : String) :
    readFile (DeleteFile fs path).1 path = none := by
  unfold DeleteFile
  induction fs with
  | nil => simp [readFile]
  | cons p rest ih =>
    obtain ⟨p0, b⟩ := p
    by_cases h0 : p0 = path
    · simpa [List.filter_cons, h0] using ih
    · simpa [List.filter_cons, h0, readFile] using ih

/-- C9: when the store holds a record for `id` and the caller is its owner or an admin,
`DeleteImage` answers 200; afterwards `GetImage id` reports not-found and the file of the
record is gone, while the keyspace is the old one without the key `image:<id>`: the tag set,
the owner's ownership set and every other key hold what they held. -/
theorem delete_contract (h : Handler) (w : World) (id : String) (img : Image) (c : AuthCtx)
    (hrec : GetImage w.redis id = Except.ok (some img))
    (hauth : img.UserID = c.userID ∨ c.isAdmin = true) :
    (DeleteImage h w id (some c)).2 = respondJSON 200 [("message", "Image deleted")]
      ∧ GetImage (DeleteImage h w id (some c)).1.redis id = Except.ok none
      ∧ readFile (DeleteImage h w id (some c)).1.files (GetFilePath h img.Filename) = none
      ∧ (DeleteImage h w id (some c)).1.redis = w.redis.filter (fun p => p.1 ≠ imageKey id)
      ∧ (∀ k, k ≠ imageKey id →
          lookup (DeleteImage h w id (some c)).1.redis k = lookup w.redis k)
      ∧ lookup (DeleteImage h w id (some c)).1.redis (tagsKey id) = lookup w.redis (tagsKey id)
      ∧ lookup (DeleteImage h w id (some c)).1.redis (userImagesKey img.UserID)
          = lookup w.redis (userImagesKey img.UserID) := by
  have hcond : (img.UserID ≠ c.userID && !c.isAdmin) = false := by
    rcases hauth with ho | ha
    · simp [ho]
    · simp [ha]
  have hD : DeleteImage h w id (some c)
      = ({ redis := DEL w.redis (imageKey id),
           files := (DeleteFile w.files (GetFilePath h img.Filename)).1 },
         respondJSON 200 [("message", "Image deleted")]) := by
    unfold DeleteImage
    rw [hrec]
    simp only [hcond]
    rfl
  have hframe : ∀ k, k ≠ imageKey id → lookup (DEL w.redis (imageKey id)) k = lookup w.redis k := by
    intro k hk
    rw [lookup_DEL, if_neg (Ne.symm hk)]
  rw [hD]
  refine ⟨rfl, ?_, readFile_DeleteFile _ _, rfl, hframe, ?_, ?_⟩
  · exact ((GetImage_cases _ id).1).2 (by rw [lookup_DEL, if_pos rfl])
  · exact hframe _ (Ne.symm (imageKey_ne_tagsKey id))
  · exact hframe _ (Ne.symm (imageKey_ne_userImagesKey id img.UserID))

/-- C9, in the sample world: the owner `alice` deletes `h1`; the tag set survives. -/
theorem delete_contract_witness :
    GetImage sampleWorld.redis "h1" = Except.ok (some catImage)
      ∧ GetImage (DeleteImage sampleHandler sampleWorld "h1"
          (some ⟨"alice", "alice", false⟩)).1.redis "h1" = Except.ok none
      ∧ lookup (DeleteImage sampleHandler sampleWorld "h1"
          (some ⟨"alice", "alice", false⟩)).1.redis (tagsKey "h1")
          = some ⟨Value.set ["cat"], some imageTTL⟩ := by
  have hrec : GetImage sampleWorld.redis "h1" = Except.ok (some catImage) := by decide
  have hd := delete_contract sampleHandler sampleWorld "h1" catImage ⟨"alice", "alice", false⟩
    hrec (Or.inl rfl)
  refine ⟨hrec, hd.2.1, ?_⟩
  rw [hd.2.2.2.2.2.1]
  decide

/-- C10: when the store already holds a record under the fingerprint of the uploaded bytes,
`UploadImage` answers 200 with the URL `/image/<fingerprint>`, whatever the user, description,
tags and privacy flag of the request, and leaves the metadata store and the upload directory
as they were. -/
theorem dedup_idempotence (h : Handler) (w : World) (r : UploadRequest) (name : String)
    (content : Bytes) (img : Image) (hfile : r.file = some (name, content))
    (hrec : GetImage w.redis (h.md5Hex content) = Except.ok (some img)) :
    UploadImage h w r = (w, respondJSON 200 [("url", "/image/" ++ h.md5Hex content)]) := by
  unfold UploadImage
  rw [hfile]
  simp only [hrec]

/-- C10, in the sample world: the bytes of `h1` uploaded again by `bob`. -/
theorem dedup_idempotence_witness :
    UploadImage sampleHandler sampleWorld reupload
      = (sampleWorld, respondJSON 200 [("url", "/image/" ++ sampleHandler.md5Hex [1, 2, 3])]) :=
  dedup_idempotence sampleHandler sampleWorld reupload "copy.jpg" [1, 2, 3] catImage rfl
    (by decide)

/-! ## Users -/

theorem userKey_injective (u v : String) (h : userKey u = userKey v) : u = v := by
  have := congrArg String.data h
  simp only [userKey, String.data_append, List.append_cancel_left_eq] at this
  exact String.ext this

theorem userKey_eq_userImagesKey_iff (u o : String) :
    userKey u = userImagesKey o ↔ u = o ++ ":images" := by
  constructor
  · intro h
    have := congrArg String.data h
    simp only [userKey, userImagesKey, String.data_append, List.append_assoc,
      List.append_cancel_left_eq] at this
    apply String.ext
    simpa [String.data_append] using this
  · intro h
    subst h
    apply String.ext
    simp [userKey, userImagesKey, String.data_append]

theorem userKey_ne_imageKey (u id : String) : userKey u ≠ imageKey id := by
  intro h
  have := congrArg String.data h
  simp [userKey, imageKey, String.data_append] at this

theorem userKey_ne_tagsKey (u id : String) : userKey u ≠ tagsKey id := by
  intro h
  have := congrArg String.data h
  simp [userKey, tagsKey, String.data_append] at this

theorem lookup_SaveUser (s : Store) (u : User) (k : String) :
    lookup (SaveUser s u) k
      = if userKey u.ID = k then some ⟨Value.str (Blob.user u), none⟩ else lookup s k :=
  lookup_SET s (userKey u.ID) (Blob.user u) k

theorem GetUser_SaveUser (s : Store) (u : User) :
    GetUser (SaveUser s u) u.ID = Except.ok (some u) := by
  have h := lookup_SaveUser s u (userKey u.ID)
  rw [if_pos rfl] at h
  unfold userKey at h
  simp [GetUser, GET, h, unmarshalUser]

theorem GetUser_eq_ok_none (s : Store) (name : String) :
    GetUser s name = Except.ok none ↔ lookup s (userKey name) = none := by
  unfold GetUser GET userKey
  cases hl : lookup s ("user:" ++ name) with
  | none => simp
  | some e =>
    obtain ⟨v, ttl⟩ := e
    cases v with
    | set ms => simp
    | zset z => simp
    | str data =>
      cases hu : unmarshalUser data <;> simp [hu]

/-- The three outcomes of `Auth.Register`, by what `GetUser` finds. -/
theorem Register_cases (a : Auth) (now : Int) (s : Store) (name pw : String) :
    (∀ u, GetUser s name = Except.ok (some u) →
        a.Register now s name pw = (s, Except.error AuthErr.usernameExists))
      ∧ (∀ e, GetUser s name = Except.error e →
        a.Register now s name pw = (s, Except.error (AuthErr.store e)))
      ∧ (lookup s (userKey name) = none →
        a.Register now s name pw
            = (SaveUser s { ID := name, Username := name, Password := a.HashPassword pw,
                            IsAdmin := name == "admin", CreatedAt := now },
               Except.ok { ID := name, Username := name, Password := a.HashPassword pw,
                           IsAdmin := name == "admin", CreatedAt := now })
          ∧ GetUser (a.Register now s name pw).1 name
            = Except.ok (some { ID := name, Username := name, Password := a.HashPassword pw,
                                IsAdmin := name == "admin", CreatedAt := now })) := by
  refine ⟨?_, ?_, ?_⟩
  · intro u hu
    simp [Auth.Register, hu]
  · intro e he
    simp [Auth.Register, he]
  · intro hnone
    have hg := (GetUser_eq_ok_none s name).2 hnone
    have hr : a.Register now s name pw
        = (SaveUser s { ID := name, Username := name, Password := a.HashPassword pw,
                        IsAdmin := name == "admin", CreatedAt := now },
           Except.ok { ID := name, Username := name, Password := a.HashPassword pw,
                       IsAdmin := name == "admin", CreatedAt := now }) := by
      simp [Auth.Register, hg]
    refine ⟨hr, ?_⟩
    rw [hr]
    exact GetUser_SaveUser s _

/-- C11 (as stated, refuted): after an upload by `bob` the key `user:bob:images` holds his
ownership set; no user record exists for the name `bob:images`, yet `Register` for that name
fails with the wrong-type error of `GetUser` and creates nothing. -/
theorem register_conflict_counterexample :
    lookup (SaveImage [] dogImage).1 (userKey "bob:images")
        = some ⟨Value.set ["h3"], some imageTTL⟩
      ∧ GetUser (SaveImage [] dogImage).1 "bob:images" = Except.error Err.wrongType
      ∧ sampleAuth.Register 7 (SaveImage [] dogImage).1 "bob:images" "pw"
        = ((SaveImage [] dogImage).1, Except.error (AuthErr.store Err.wrongType)) := by
  decide

/-- C11 (amended): when `GetUser` finds a record for the username, `Register` fails with
`username already exists`, returns no user and leaves the store as it was; when no value is
stored under `user:<username>` it succeeds, stores the new record (admin exactly for the name
`admin`) and `GetUser` then returns it; when `GetUser` fails, on a key that holds no readable
user record, `Register` fails with that error and leaves the store as it was. -/
theorem register_conflict (a : Auth) (now : Int) (s : Store) (name pw : String) :
    (∀ u, GetUser s name = Except.ok (some u) →
        a.Register now s name pw = (s, Except.error AuthErr.usernameExists))
      ∧ (lookup s (userKey name) = none →
        a.Register now s name pw
            = (SaveUser s { ID := name, Username := name, Password := a.HashPassword pw,
                            IsAdmin := name == "admin", CreatedAt := now },
               Except.ok { ID := name, Username := name, Password := a.HashPassword pw,
                           IsAdmin := name == "admin", CreatedAt := now })
          ∧ GetUser (a.Register now s name pw).1 name
            = Except.ok (some { ID := name, Username := name, Password := a.HashPassword pw,
                                IsAdmin := name == "admin", CreatedAt := now }))
      ∧ (∀ e, GetUser s name = Except.error e →
        a.Register now s name pw = (s, Except.error (AuthErr.store e))) :=
  ⟨(Register_cases a now s name pw).1, (Register_cases a now s name pw).2.2,
    (Register_cases a now s name pw).2.1⟩

/-- C11 (amended), on concrete stores: `admin` registers into the empty store, and a second
registration of `admin` is refused without touching the record. -/
theorem register_conflict_witness :
    GetUser (sampleAuth.Register 1 [] "admin" "pw").1 "admin" = Except.ok (some adminUser)
      ∧ sampleAuth.Register 2 (sampleAuth.Register 1 [] "admin" "pw").1 "admin" "other"
        = ((sampleAuth.Register 1 [] "admin" "pw").1, Except.error AuthErr.usernameExists) :=
  ⟨((register_conflict sampleAuth 1 [] "admin" "pw").2.1 rfl).2,
    (register_conflict sampleAuth 2 (sampleAuth.Register 1 [] "admin" "pw").1 "admin" "other").1
      adminUser (by decide)⟩

/-- C16 (as stated, refuted): `Register` accepts the username `bob:images`, whose record
key is the ownership-set key of the owner `bob`; a later `SaveImage` under owner `bob` fails
on that key and puts its 30-day expiry on the user record. -/
theorem key_namespaces_counterexample :
    userKey "bob:images" = userImagesKey "bob"
      ∧ (sampleAuth.Register 1 [] "bob:images" "pw").2 = Except.ok bobImagesUser
      ∧ (SaveImage (sampleAuth.Register 1 [] "bob:images" "pw").1 dogImage).2
        = some Err.wrongType
      ∧ lookup (SaveImage (sampleAuth.Register 1 [] "bob:images" "pw").1 dogImage).1
          (userImagesKey dogImage.UserID)
        = some ⟨Value.str (Blob.user bobImagesUser), some imageTTL⟩ := by
  decide

/-- C16 (amended): the user-record key of `u` is the ownership-set key of `o` exactly when
`u` is `o` followed by `:images`.  For every other pair the two keys differ: registering `u`
leaves the ownership set of `o` as it was, and `SaveImage` under owner `o` leaves whatever is
stored under the user key of `u` as it was. -/
theorem key_namespaces (u o : String) :
    (userKey u = userImagesKey o ↔ u = o ++ ":images")
      ∧ (u ≠ o ++ ":images" →
          (∀ (a : Auth) (now : Int) (s : Store) (pw : String),
            lookup (a.Register now s u pw).1 (userImagesKey o) = lookup s (userImagesKey o))
          ∧ (∀ (s : Store) (x : Image), x.UserID = o →
            lookup (SaveImage s x).1 (userKey u) = lookup s (userKey u))) := by
  refine ⟨userKey_eq_userImagesKey_iff u o, fun hne => ⟨?_, ?_⟩⟩
  · intro a now s pw
    have hk : userKey u ≠ userImagesKey o := fun h => hne ((userKey_eq_userImagesKey_iff u o).1 h)
    unfold Auth.Register
    split
    · rfl
    · rfl
    · simp only
      rw [lookup_SaveUser, if_neg hk]
  · intro s x hx
    subst hx
    have hk : userKey u ≠ userImagesKey x.UserID :=
      fun h => hne ((userKey_eq_userImagesKey_iff u x.UserID).1 h)
    rw [lookup_SaveImage, if_neg (userKey_ne_imageKey u x.ID),
      if_neg (userKey_ne_tagsKey u x.ID), if_neg hk]

/-- C16 (amended), for the username `alice` and the owner `bob`. -/
theorem key_namespaces_witness :
    (∀ (a : Auth) (now : Int) (s : Store) (pw : String),
        lookup (a.Register now s "alice" pw).1 (userImagesKey "bob")
          = lookup s (userImagesKey "bob"))
      ∧ (∀ (s : Store) (x : Image), x.UserID = "bob" →
        lookup (SaveImage s x).1 (userKey "alice") = lookup s (userKey "alice")) :=
  (key_namespaces "alice" "bob").2 (by decide)

/-! ### The admin flag -/

theorem UserInv_nil : UserInv [] := by
  intro k e h
  simp [lookup] at h

theorem UserInv_SaveUser (s : Store) (u : User) (h : UserInv s)
    (hu : u.IsAdmin = true → u.ID = "admin") : UserInv (SaveUser s u) := by
  intro k e hk
  rw [lookup_SaveUser] at hk
  by_cases hkey : userKey u.ID = k
  · rw [if_pos hkey] at hk
    simp only [Option.some.injEq] at hk
    exact ⟨u, by rw [← hk], hkey.symm, hu⟩
  · rw [if_neg hkey] at hk
    exact h k e hk

theorem UserInv_DEL (s : Store) (k0 : String) (h : UserInv s) : UserInv (DEL s k0) := by
  intro k e hk
  rw [lookup_DEL] at hk
  by_cases hkey : k0 = k
  · rw [if_pos hkey] at hk
    exact absurd hk (by simp)
  · rw [if_neg hkey] at hk
    exact h k e hk

/-- Under the invariant, what `GetUser` returns is the record stored under the name. -/
theorem GetUser_of_UserInv (s : Store) (name : String) (u : User) (h : UserInv s)
    (hg : GetUser s name = Except.ok (some u)) :
    u.ID = name ∧ (u.IsAdmin = true → u.ID = "admin")
      ∧ ∃ e, lookup s (userKey name) = some e ∧ e.val = Value.str (Blob.user u) := by
  cases hl : lookup s (userKey name) with
  | none =>
    have := (GetUser_eq_ok_none s name).2 hl
    rw [hg] at this
    simp at this
  | some e =>
    obtain ⟨u', hval, hkey, hadm⟩ := h _ e hl
    have hname : name = u'.ID := userKey_injective _ _ hkey
    obtain ⟨v, ttl⟩ := e
    simp only at hval
    subst hval
    have hl' : lookup s ("user:" ++ name) = some ⟨Value.str (Blob.user u'), ttl⟩ := hl
    have hu : u = u' := by
      simp [GetUser, GET, hl', unmarshalUser] at hg
      exact hg.symm
    subst hu
    exact ⟨hname.symm, hadm, _, rfl, rfl⟩

theorem UserInv_Register (a : Auth) (now : Int) (s : Store) (name pw : String)
    (h : UserInv s) : UserInv (a.Register now s name pw).1 := by
  unfold Auth.Register
  split
  · exact h
  · exact h
  · apply UserInv_SaveUser _ _ h
    intro hadm
    simpa using hadm

theorem UserInv_ChangePassword (a : Auth) (s : Store) (ctx : Option AuthCtx)
    (body : Option String) (h : UserInv s) :
    UserInv (Handler.ChangePassword a s ctx body).1 := by
  unfold Handler.ChangePassword
  split
  · exact h
  · split
    · exact h
    · split
      · rename_i user hg
        exact UserInv_SaveUser _ _ h (GetUser_of_UserInv _ _ _ h hg).2.1
      · exact h

theorem UserInv_ResetPassword (a : Auth) (s : Store) (body : Option (String × String))
    (h : UserInv s) : UserInv (Handler.ResetPassword a s body).1 := by
  unfold Handler.ResetPassword
  split
  · exact h
  · split
    · rename_i user hg
      exact UserInv_SaveUser _ _ h (GetUser_of_UserInv _ _ _ h hg).2.1
    · exact h

theorem UserInv_ChangeUsername (s : Store) (ctx : Option AuthCtx) (body : Option String)
    (h : UserInv s) : UserInv (Handler.ChangeUsername s ctx body).1 := by
  unfold Handler.ChangeUsername
  split
  · exact h
  · split
    · exact h
    · split
      · rename_i user hg
        exact UserInv_SaveUser _ _ h (GetUser_of_UserInv _ _ _ h hg).2.1
      · exact h

theorem UserInv_deleteUserKey (s : Store) (userID : String) (h : UserInv s) :
    UserInv (deleteUserKey s userID).1 := by
  unfold deleteUserKey
  split
  · split
    · exact h
    · exact UserInv_DEL _ _ h
  · exact UserInv_DEL _ _ h

theorem UserInv_DeleteUser (s : Store) (ctx : Option AuthCtx) (body : Option String)
    (h : UserInv s) : UserInv (Handler.DeleteUser s ctx body).1 := by
  unfold Handler.DeleteUser
  split
  · exact h
  · split
    · split
      · exact h
      · exact UserInv_deleteUserKey _ _ h
    · exact UserInv_deleteUserKey _ _ h

theorem UserInv_of_reachable (a : Auth) (s : Store) (h : UserReachable a s) : UserInv s := by
  induction h with
  | empty => exact UserInv_nil
  | register s now username password _ ih => exact UserInv_Register a now s username password ih
  | changePassword s ctx body _ ih => exact UserInv_ChangePassword a s ctx body ih
  | resetPassword s body _ ih => exact UserInv_ResetPassword a s body ih
  | changeUsername s ctx body _ ih => exact UserInv_ChangeUsername s ctx body ih
  | deleteUser s ctx body _ ih => exact UserInv_DeleteUser s ctx body ih

theorem Register_isAdmin (a : Auth) (now : Int) (s : Store) (name pw : String) (u : User)
    (h : (a.Register now s name pw).2 = Except.ok u) :
    u.ID = name ∧ (u.IsAdmin = true ↔ name = "admin") := by
  unfold Auth.Register at h
  split at h
  · simp at h
  · simp at h
  · simp only [Except.ok.injEq] at h
    subst h
    simp

/-- C12: in every keyspace reachable from the empty one by `Register`, `ChangePassword`,
`ResetPassword`, `ChangeUsername` and `DeleteUser`, a stored user record is an admin only if
its id is `admin`, and it then sits under the key `user:admin`; so two admin records are one
and the same, under one key; what `GetUser` returns is an admin only for the name `admin`; and
the record `Register` creates is an admin exactly when the username is `admin`. -/
theorem admin_flag_invariant (a : Auth) (s : Store) (h : UserReachable a s) :
    (∀ k e u, lookup s k = some e → e.val = Value.str (Blob.user u) → u.IsAdmin = true →
        u.ID = "admin" ∧ k = userKey "admin")
      ∧ (∀ k₁ k₂ e₁ e₂ u₁ u₂,
          lookup s k₁ = some e₁ → e₁.val = Value.str (Blob.user u₁) → u₁.IsAdmin = true →
          lookup s k₂ = some e₂ → e₂.val = Value.str (Blob.user u₂) → u₂.IsAdmin = true →
          k₁ = k₂ ∧ u₁ = u₂)
      ∧ (∀ name u, GetUser s name = Except.ok (some u) → u.IsAdmin = true →
          name = "admin" ∧ u.ID = "admin")
      ∧ (∀ now s' name pw u, (a.Register now s' name pw).2 = Except.ok u →
          (u.IsAdmin = true ↔ name = "admin")) := by
  have hinv := UserInv_of_reachable a s h
  have h1 : ∀ k e u, lookup s k = some e → e.val = Value.str (Blob.user u) →
      u.IsAdmin = true → u.ID = "admin" ∧ k = userKey "admin" := by
    intro k e u hl hval hadm
    obtain ⟨u', hval', hkey, hadm'⟩ := hinv k e hl
    rw [hval] at hval'
    simp only [Value.str.injEq, Blob.user.injEq] at hval'
    subst hval'
    have hid := hadm' hadm
    exact ⟨hid, by rw [hkey, hid]⟩
  refine ⟨h1, ?_, ?_, ?_⟩
  · intro k₁ k₂ e₁ e₂ u₁ u₂ hl₁ hv₁ ha₁ hl₂ hv₂ ha₂
    have hk₁ := (h1 k₁ e₁ u₁ hl₁ hv₁ ha₁).2
    have hk₂ := (h1 k₂ e₂ u₂ hl₂ hv₂ ha₂).2
    have hk : k₁ = k₂ := by rw [hk₁, hk₂]
    subst hk
    rw [hl₁] at hl₂
    simp only [Option.some.injEq] at hl₂
    subst hl₂
    rw [hv₁] at hv₂
    simp only [Value.str.injEq, Blob.user.injEq] at hv₂
    exact ⟨rfl, hv₂⟩
  · intro name u hg hadm
    obtain ⟨hid, hadm', -⟩ := GetUser_of_UserInv s name u hinv hg
    have := hadm' hadm
    exact ⟨by rw [← hid, this], this⟩
  · intro now s' name pw u hr
    exact (Register_isAdmin a now s' name pw u hr).2

/-- C12, on the keyspace reached by registering `admin` and then `bob`. -/
theorem admin_flag_invariant_witness :
    UserReachable sampleAuth
        (sampleAuth.Register 2 (sampleAuth.Register 1 [] "admin" "pw").1 "bob" "pw").1
      ∧ ∀ name u,
          GetUser (sampleAuth.Register 2 (sampleAuth.Register 1 [] "admin" "pw").1 "bob" "pw").1
            name = Except.ok (some u) →
          u.IsAdmin = true → name = "admin" ∧ u.ID = "admin" :=
  ⟨UserReachable.register _ 2 "bob" "pw" (UserReachable.register _ 1 "admin" "pw"
      UserReachable.empty),
    (admin_flag_invariant sampleAuth _
      (UserReachable.register _ 2 "bob" "pw" (UserReachable.register _ 1 "admin" "pw"
        UserReachable.empty))).2.2.1⟩

/-! ## Search and image access through the handlers -/

theorem filterVisible_some (c : AuthCtx) (images : List Image) :
    filterVisible (some c) images
      = images.filter (fun r => !r.IsPrivate || r.UserID == c.userID || c.isAdmin) := by
  induction images with
  | nil => rfl
  | cons img rest ih =>
    unfold filterVisible
    rw [ih]
    by_cases hp : img.IsPrivate = true
    · by_cases ho : img.UserID = c.userID
      · simp [List.filter_cons, hp, ho]
      · by_cases ha : c.isAdmin = true
        · simp [List.filter_cons, hp, ho, ha]
        · simp [List.filter_cons, hp, ho, ha]
    · simp [List.filter_cons, hp]

theorem filterVisible_none (images : List Image) :
    filterVisible none images = images.filter (fun r => !r.IsPrivate) := by
  induction images with
  | nil => rfl
  | cons img rest ih =>
    unfold filterVisible
    rw [ih]
    by_cases hp : img.IsPrivate = true <;> simp [List.filter_cons, hp]

/-- C13: when the search engine returns the list `images`, the response of the
`SearchImages` handler to an authenticated caller is status 200 with the records of `images`
that are not private, or owned by the caller, or any record when the caller is an admin: the
same records, unaltered and in the same relative order. -/
theorem search_privacy_filter (w : World) (q : String) (offset limit : Int) (c : AuthCtx)
    (images : List Image)
    (hs : SearchImages w.redis q offset (if limit = 0 then 10 else limit) = Except.ok images) :
    ∃ L : List Image, Handler.SearchImages w q offset limit (some c)
          = (w, Response.images 200 L)
      ∧ L = images.filter (fun r => !r.IsPrivate || r.UserID == c.userID || c.isAdmin)
      ∧ (∀ r, r ∈ L ↔
          r ∈ images ∧ (r.IsPrivate = false ∨ r.UserID = c.userID ∨ c.isAdmin = true))
      ∧ L.Sublist images := by
  refine ⟨images.filter (fun r => !r.IsPrivate || r.UserID == c.userID || c.isAdmin),
    ?_, rfl, ?_, List.filter_sublist _⟩
  · unfold Handler.SearchImages
    simp only [hs, filterVisible_some]
  · intro r
    simp only [List.mem_filter, Bool.or_eq_true, Bool.not_eq_true', beq_iff_eq, or_assoc]

/-- C13, in the world with a private record of `alice` and a public record of `bob`: the
engine finds both for the query `cat`, and `bob` is shown his own record only. -/
theorem search_privacy_filter_witness :
    ∃ L : List Image,
      Handler.SearchImages privateWorld "cat" 0 0 (some ⟨"bob", "bob", false⟩)
          = (privateWorld, Response.images 200 L)
      ∧ L = [privateImage, dogImage].filter
          (fun r => !r.IsPrivate || r.UserID == "bob" || false)
      ∧ (∀ r, r ∈ L ↔ r ∈ [privateImage, dogImage]
          ∧ (r.IsPrivate = false ∨ r.UserID = "bob" ∨ false = true))
      ∧ L.Sublist [privateImage, dogImage] :=
  search_privacy_filter privateWorld "cat" 0 0 ⟨"bob", "bob", false⟩ [privateImage, dogImage]
    (by decide)

/-- For every caller, whatever the `Authorization` header, the route `GET /image/{id}`
refuses an existing private image and changes nothing. -/
theorem SetupRouter_GET_private (parse : String → Option AuthCtx) (h : Handler) (w : World)
    (id authHeader : String) (img : Image)
    (hrec : GetImage w.redis id = Except.ok (some img)) (hp : img.IsPrivate = true) :
    SetupRouter parse h w ImageMethod.GET id authHeader
      = (w, respondError 403 "Private image") := by
  simp [SetupRouter, Handler.GetImage, hrec, hp]

/-- For every caller, the route `GET /image/{id}` serves an existing public image and
counts the view. -/
theorem SetupRouter_GET_public (parse : String → Option AuthCtx) (h : Handler) (w : World)
    (id authHeader : String) (img : Image)
    (hrec : GetImage w.redis id = Except.ok (some img)) (hp : img.IsPrivate = false) :
    SetupRouter parse h w ImageMethod.GET id authHeader
      = ({ w with redis := (IncrementView w.redis id).1 },
          Response.file (GetFilePath h img.Filename)) := by
  simp [SetupRouter, Handler.GetImage, hrec, hp]

/-- C14 (the code at the failing input): `h4` is an existing private image of `alice` and
`token-of-alice` is her valid token, accepted on the `DELETE` route of the same pattern; yet
`GET /image/h4` with that token is answered 403 and no view is counted, because the route is
registered outside the authenticated group.  The handler itself would serve her, had the
context been filled in. -/
theorem private_image_owner_refused :
    GetImage privateWorld.redis "h4" = Except.ok (some privateImage)
      ∧ sampleParse (trimBearer "Bearer token-of-alice") = some ⟨"alice", "alice", false⟩
      ∧ SetupRouter sampleParse sampleHandler privateWorld ImageMethod.GET "h4"
          "Bearer token-of-alice" = (privateWorld, respondError 403 "Private image")
      ∧ (SetupRouter sampleParse sampleHandler privateWorld ImageMethod.DELETE "h4"
          "Bearer token-of-alice").2 = respondJSON 200 [("message", "Image deleted")]
      ∧ sampleHandler.GetImage privateWorld "h4" (some ⟨"alice", "alice", false⟩)
        = ({ privateWorld with redis := (IncrementView privateWorld.redis "h4").1 },
            Response.file "uploads/h4.png") := by
  decide

/-- A negative offset passes the first guard of the paging code and makes the slice
expression panic, whatever the records and the limit. -/
theorem pageOf_negative_offset (images : List Image) (offset limit : Int) (h : offset < 0) :
    pageOf images offset limit = Except.error Err.sliceBounds := by
  unfold pageOf
  have h1 : ¬ offset ≥ (images.length : Int) := by omega
  have h2 : ¬ (0 ≤ offset) := by omega
  simp [h1, h2]

/-- With a negative `offset` parameter the `SearchImages` handler panics, in every store
and for every query, limit and caller. -/
theorem Handler_SearchImages_negative_offset (w : World) (q : String) (offset limit : Int)
    (ctx : Option AuthCtx) (h : offset < 0) :
    Handler.SearchImages w q offset limit ctx = (w, Response.panic) := by
  unfold Handler.SearchImages Ibed.SearchImages
  simp only [searchLoop_KEYS, pageOf_negative_offset _ _ _ h, Err.isPanic, if_true]

/-- C15 (the code at the failing inputs): with `offset=-1` the engine's slice expression is
out of bounds and the handler panics instead of answering; so it does with a negative limit
below a valid offset, and with a limit whose sum with the offset overflows. -/
theorem search_not_total :
    SearchImages privateWorld.redis "a" (-1) 10 = Except.error Err.sliceBounds
      ∧ Handler.SearchImages privateWorld "a" (-1) 0 (some ⟨"bob", "bob", false⟩)
        = (privateWorld, Response.panic)
      ∧ Handler.SearchImages privateWorld "a" 1 (-5) (some ⟨"bob", "bob", false⟩)
        = (privateWorld, Response.panic)
      ∧ Handler.SearchImages privateWorld "a" 1 9223372036854775807
          (some ⟨"bob", "bob", false⟩)
        = (privateWorld, Response.panic) := by
  decide

end Ibed
